import Mathlib

/-!
Verification of the Pyecobee object marshaller
(`pyecobee/utilities.py`, class `Utilities`), a shallow embedding of
`Utilities.dictionary_to_object` (JSON payload decoding via generated
constructor code) and `Utilities.object_to_dictionary` (encoding a typed
object graph back into a payload).

The wire payload model: nested key-value data with string keys, values
being scalars (strings, integers, booleans, null), nested payloads, or
ordered sequences.  `JVal`, `JArr`, `JObj` form a mutual inductive family
so that every function over payloads is structural recursion.
-/

mutual

inductive JVal where
  | str (s : String)
  | int (n : Int)
  | bool (b : Bool)
  | null
  | arr (elems : JArr)
  | obj (entries : JObj)
  deriving DecidableEq

inductive JArr where
  | nil
  | cons (hd : JVal) (tl : JArr)
  deriving DecidableEq

inductive JObj where
  | nil
  | cons (key : String) (val : JVal) (tl : JObj)
  deriving DecidableEq

end

/-- Lookup of a key in a payload object, first match wins. -/
def JObj.lookup (k : String) : JObj → Option JVal
  | .nil => none
  | .cons k2 v tl => if k2 = k then some v else JObj.lookup k tl

/-- Membership of an entry in a payload object. -/
def JObj.Mem (k : String) (v : JVal) : JObj → Prop
  | .nil => False
  | .cons k2 v2 tl => (k2 = k ∧ v2 = v) ∨ JObj.Mem k v tl

/-- The keys of a payload object. -/
def JObj.keys : JObj → List String
  | .nil => []
  | .cons k _ tl => k :: JObj.keys tl

/-!
Decoded object graphs.  The decoder of the source materialises objects by
generating Python constructor-call text and evaluating it once at the top
level; `PVal` is the meaning of that evaluated text: scalars, `None`,
lists, and constructed domain objects.  A constructed object is recorded
as its class name together with one entry per `__slots__` storage slot
(slot names keep their leading underscore, as in the source classes);
slots not assigned by the constructor call hold `PVal.none`.
-/

mutual

inductive PVal where
  | str (s : String)
  | int (n : Int)
  | bool (b : Bool)
  | none
  | list (elems : PList)
  | obj (cls : String) (fields : PFields)
  deriving DecidableEq

inductive PList where
  | nil
  | cons (hd : PVal) (tl : PList)
  deriving DecidableEq

inductive PFields where
  | nil
  | cons (name : String) (val : PVal) (tl : PFields)
  deriving DecidableEq

end

/-- Errors the marshaller can raise.  The first three model exceptions
raised while the constructor text is being generated (uncaught `KeyError`
from an attribute map, uncaught `AttributeError` from `getattr` on the
module, `IndexError` from indexing the empty parent-class stack).
`badGeneratedCode` models the `SyntaxError` raised by `eval` when the
generated text is malformed, and `typeError` the `TypeError` raised when
an evaluated constructor call does not bind its arguments.
`accumulatorError` models the crash on the `response_properties`
accumulator when the parent-class stack is corrupted across calls, and
`unrepresentable` marks the encoder emitting a non-payload Python object
verbatim into the output dictionary. -/
inductive PyErr where
  | keyError (k : String)
  | attributeError (n : String)
  | indexError
  | badGeneratedCode
  | typeError (m : String)
  | accumulatorError
  | unrepresentable
  deriving DecidableEq

/-- Static metadata of one registered class: its name, its `__slots__`
list (storage names, each starting with an underscore), its
`attribute_name_map` (holding both the wire-name to field-name and the
field-name to wire-name direction, as in the source classes), its
`attribute_type_map` (field name to declared type string), the list
`ctor_required` of constructor parameter names that have no default
value (transcribed from the `__init__` signatures: the response classes
of `src/pyecobee/responses.py` take only required positional
parameters, while the domain classes of the `pyecobee.objects` package,
not in this source tree, take one keyword parameter per slot defaulting
to `None`, as the sparse constructor calls in `service.py` and
`tests/test.py` corroborate), and the flag `slots_method` recording
whether the class provides the `slots()` iteration method the encoder
calls (`object_.slots()`, utilities.py line 397): no such method exists
in `src/pyecobee/ecobee_object.py`, so the response classes lack it,
while the domain classes the encoder is actually invoked on must
provide it. -/
structure ClassInfo where
  name : String
  slots : List String
  attribute_name_map : List (String × String)
  attribute_type_map : List (String × String)
  ctor_required : List String
  slots_method : Bool
  deriving DecidableEq

/-- The module namespace of `pyecobee/utilities.py` as seen by
`getattr(sys.modules[__name__], name)`: the imported domain and response
classes, keyed by class name. -/
abbrev Registry := List (String × ClassInfo)

/-- The literal `Utilities._class_name_map` from the source (line 94):
wire keys whose capitalised form is not the class name. -/
def class_name_map : List (String × String) := [("tou", "TimeOfUse")]

/-- Names defined in the `builtins` module, as enumerated by
`list(zip(*inspect.getmembers(builtins)))[0]` in the source.  Only
membership of candidate field names matters to the marshaller; this list
models the builtins namespace for the names the domain model can use. -/
def pythonBuiltinNames : List String :=
  ["abs", "all", "any", "ascii", "bin", "bool", "bytearray", "bytes",
   "callable", "chr", "classmethod", "compile", "complex", "delattr",
   "dict", "dir", "divmod", "enumerate", "eval", "exec", "filter",
   "float", "format", "frozenset", "getattr", "globals", "hasattr",
   "hash", "help", "hex", "id", "input", "int", "isinstance",
   "issubclass", "iter", "len", "list", "locals", "map", "max",
   "memoryview", "min", "next", "object", "oct", "open", "ord", "pow",
   "print", "property", "range", "repr", "reversed", "round", "set",
   "setattr", "slice", "sorted", "staticmethod", "str", "sum", "super",
   "tuple", "type", "vars", "zip"]

/-- The contents of `keyword.kwlist` for Python 3. -/
def pythonKeywords : List String :=
  ["False", "None", "True", "and", "as", "assert", "async", "await",
   "break", "class", "continue", "def", "del", "elif", "else", "except",
   "finally", "for", "from", "global", "if", "import", "in", "is",
   "lambda", "nonlocal", "not", "or", "pass", "raise", "return", "try",
   "while", "with", "yield"]

/-- The keyword-argument name used for a field: the field name, with a
single trailing underscore appended when the name collides with a
builtin or a Python keyword (source lines 272-278; the same convention
names the constructor parameters of the domain classes). -/
def munge (f : String) : String :=
  if f ∈ pythonBuiltinNames ∨ f ∈ pythonKeywords then f ++ "_" else f

/-- Python `key[:1].upper() + key[1:]`. -/
def capFirst (s : String) : String :=
  match s.data with
  | [] => ""
  | c :: cs => String.mk (c.toUpper :: cs)

/-- Resolution of the class of a nested object value (source lines
108-124): `getattr` on the capitalised key, falling back to the
`_class_name_map` alias (an uncaught `KeyError` when the key has no
alias, an uncaught `AttributeError` when the alias is not a module
attribute). -/
def resolveNested (reg : Registry) (k : String) : Except PyErr ClassInfo :=
  match List.lookup (capFirst k) reg with
  | some c => .ok c
  | Option.none =>
      match List.lookup k class_name_map with
      | some alias2 =>
          match List.lookup alias2 reg with
          | some c => .ok c
          | Option.none => .error (.attributeError alias2)
      | Option.none => .error (.keyError k)

/-- Whether one character list starts with another. -/
def charsLeading : List Char → List Char → Bool
  | [], _ => true
  | _ :: _, [] => false
  | a :: as, b :: bs => a == b && charsLeading as bs

/-- Whether one character list occurs inside another. -/
def charsContain (pat : List Char) : List Char → Bool
  | [] => charsLeading pat []
  | c :: cs => charsLeading pat (c :: cs) || charsContain pat cs

/-- Whether the declared type string mentions `List`
(Python `class_name.find(%x27List%x27) != -1`). -/
def mentionsList (ty : String) : Bool :=
  charsContain "List".data ty.data

/-- The element class name sliced out of a `List[...]` type string
(Python `class_name[5:-1]`). -/
def listElemName (ty : String) : String :=
  String.mk ((ty.data.drop 5).dropLast)

/-- Denotation of `repr(value)` spliced into a keyword argument for a
scalar payload value (source line 280): faithful for strings, integers,
booleans and `None`.  Never applied to objects or sequences (those take
the other branches of the source). -/
def reprScalar : JVal → PVal
  | .str s => .str s
  | .int n => .int n
  | .bool b => .bool b
  | .null => .none
  | .arr _ => .none
  | .obj _ => .none

/-- Denotation of the builtin-data branch of the source (lines 322-330)
for one scalar: `bool(format(data))` is `bool` of a nonempty string, so
every boolean comes out `True`; `int(format(data))` reproduces the
integer; `format` of a string is the string; `format(None)` is the
string `None`.  Never applied to objects or sequences. -/
def builtinCoerce : JVal → PVal
  | .str s => .str s
  | .int n => .int n
  | .bool _ => .bool true
  | .null => .str "None"
  | .arr _ => .none
  | .obj _ => .none

/-- Whether a payload value is a scalar (including null). -/
def JVal.isScalar : JVal → Bool
  | .arr _ => false
  | .obj _ => false
  | _ => true

/-- Whether a keyword argument name binds a constructor parameter of the
class.  Modelled from the spec: the domain classes (package
`pyecobee.objects`, whose files are not part of this source tree) take
one keyword parameter per slot, named by the public slot name with the
same trailing-underscore munging the decoder applies. -/
def bindsKwarg (cls : ClassInfo) (n : String) : Bool :=
  cls.slots.any (fun s => munge (s.drop 1) == n)

/-- Whether every keyword argument of a generated constructor call binds
a parameter. -/
def PFields.allBind (cls : ClassInfo) : PFields → Bool
  | .nil => true
  | .cons n _ tl => bindsKwarg cls n && PFields.allBind cls tl

/-- The value passed for a given constructor parameter name, if any. -/
def findKwarg (n : String) : PFields → Option PVal
  | .nil => Option.none
  | .cons n2 v tl => if n2 = n then some v else findKwarg n tl

/-- The slot assignment performed by the constructor body: slot `_x`
receives the argument named `munge x`, every unassigned slot holds
`None`. -/
def assembleFields (slots : List String) (kwargs : PFields) : PFields :=
  match slots with
  | [] => .nil
  | s :: rest => .cons s ((findKwarg (munge (s.drop 1)) kwargs).getD .none) (assembleFields rest kwargs)

/-- Evaluation of one generated constructor call `Cls(kwargs)`: a
`TypeError` when an argument binds no parameter or when a required
parameter (one without a default, see `ClassInfo.ctor_required`) is not
supplied, otherwise the constructed object with its slots assigned
(parameters with defaults fall back to `None`). -/
def mkObj (cls : ClassInfo) (kwargs : PFields) : Except PyErr PVal :=
  if kwargs.allBind cls && cls.ctor_required.all (fun p => (findKwarg p kwargs).isSome) then
    .ok (.obj cls.name (assembleFields cls.slots kwargs))
  else .error (.typeError cls.name)

/-- Evaluation of a generated constructor call with one positional
argument, `Cls(value)` (arising when a list element under a
domain-typed field is not itself a payload object): the value binds the
first constructor parameter; a `TypeError` when there is none or when
any further parameter is required. -/
def posBind (cls : ClassInfo) (v : PVal) : Except PyErr PVal :=
  match cls.slots with
  | [] => .error (.typeError cls.name)
  | s :: _ =>
      if cls.ctor_required.all (fun p => p == munge (s.drop 1)) then
        .ok (.obj cls.name (assembleFields cls.slots (.cons (munge (s.drop 1)) v .nil)))
      else .error (.typeError cls.name)

/-!
The decoder.  `Utilities.dictionary_to_object` walks the payload once,
appending fragments of Python constructor text to the accumulator
`response_properties[top_key]`, and only the top-level call evaluates the
joined text of the most recent top-level key (source lines 332-335).
The embedding therefore separates the two phases: the outer
`Except PyErr` layer carries exceptions raised during generation
(uncaught `KeyError` / `AttributeError` / `IndexError`), while the inner
`Bool × Except PyErr _` value is the deferred meaning of the generated
text: the flag records that the text is syntactically malformed (a stray
comma from a skipped unknown key, or a keyword argument inside a list
literal), and the inner `Except` evaluates the constructor calls.  The
inner layer is forced only where the source calls `eval`.
-/

mutual

/-- Decoding of the entries of a payload object whose enclosing class is
`cls` (the dict branch of the source, lines 106-302, in the nested case
`len(parent_classes) > 1`), producing the keyword arguments of the
enclosing generated constructor call. -/
def decodeEntries (reg : Registry) (cls : ClassInfo) : JObj → Except PyErr (Bool × Except PyErr PFields)
  | .nil => .ok (false, .ok .nil)
  | .cons k v tl =>
    match v with
    | .obj inner => do
        let child ← resolveNested reg k
        match List.lookup k cls.attribute_name_map with
        | Option.none => .error (.keyError k)
        | some f => do
            let (m1, ev1) ← decodeEntries reg child inner
            let (m2, ev2) ← decodeEntries reg cls tl
            .ok (m1 || m2, do
              let kw ← ev1
              let o ← mkObj child kw
              let rest ← ev2
              .ok (.cons f o rest))
    | .arr xs =>
        match List.lookup k cls.attribute_name_map with
        | Option.none => .error (.keyError k)
        | some f => do
            let (m1, ev1) ← decodeListElems reg cls f xs
            let (m2, ev2) ← decodeEntries reg cls tl
            .ok (m1 || m2, do
              let es ← ev1
              let rest ← ev2
              .ok (.cons f (.list es) rest))
    | .str s =>
        match List.lookup k cls.attribute_name_map with
        | some f => do
            let (m2, ev2) ← decodeEntries reg cls tl
            .ok (m2, (fun rest => PFields.cons (munge f) (reprScalar (.str s)) rest) <$> ev2)
        | Option.none => do
            let (m2, ev2) ← decodeEntries reg cls tl
            .ok ((tl != .nil) || m2, ev2)
    | .int n =>
        match List.lookup k cls.attribute_name_map with
        | some f => do
            let (m2, ev2) ← decodeEntries reg cls tl
            .ok (m2, (fun rest => PFields.cons (munge f) (reprScalar (.int n)) rest) <$> ev2)
        | Option.none => do
            let (m2, ev2) ← decodeEntries reg cls tl
            .ok ((tl != .nil) || m2, ev2)
    | .bool b =>
        match List.lookup k cls.attribute_name_map with
        | some f => do
            let (m2, ev2) ← decodeEntries reg cls tl
            .ok (m2, (fun rest => PFields.cons (munge f) (reprScalar (.bool b)) rest) <$> ev2)
        | Option.none => do
            let (m2, ev2) ← decodeEntries reg cls tl
            .ok ((tl != .nil) || m2, ev2)
    | .null =>
        match List.lookup k cls.attribute_name_map with
        | some f => do
            let (m2, ev2) ← decodeEntries reg cls tl
            .ok (m2, (fun rest => PFields.cons (munge f) (reprScalar .null) rest) <$> ev2)
        | Option.none => do
            let (m2, ev2) ← decodeEntries reg cls tl
            .ok ((tl != .nil) || m2, ev2)

/-- Decoding of the elements of a sequence stored under field `f` of
class `cls` (source lines 190-259).  The declared element type is read
from `attribute_type_map` once per element, exactly as the source does
inside its loop; when it names a registered class the element is decoded
as an instance of that class, otherwise the element is copied through
the builtin-data branch. -/
def decodeListElems (reg : Registry) (cls : ClassInfo) (f : String) : JArr → Except PyErr (Bool × Except PyErr PList)
  | .nil => .ok (false, .ok .nil)
  | .cons x xs =>
      match List.lookup f cls.attribute_type_map with
      | Option.none => .error (.keyError f)
      | some ty =>
          if mentionsList ty then
            match List.lookup (listElemName ty) reg with
            | some ecls => do
                let (m1, ev1) ← decodeDomainElem reg ecls x
                let (m2, ev2) ← decodeListElems reg cls f xs
                .ok (m1 || m2, do
                  let h ← ev1
                  let t ← ev2
                  .ok (.cons h t))
            | Option.none => do
                let (m1, v1) := decodePrimElem x
                let (m2, ev2) ← decodeListElems reg cls f xs
                .ok (m1 || m2, (fun t => PList.cons v1 t) <$> ev2)
          else do
            let (m1, v1) := decodePrimElem x
            let (m2, ev2) ← decodeListElems reg cls f xs
            .ok (m1 || m2, (fun t => PList.cons v1 t) <$> ev2)

/-- Decoding of one sequence element under a registered element class
(source lines 224-246): a payload object becomes a keyword-argument
constructor call; any other element is spliced into `Cls(...)` as a
positional literal. -/
def decodeDomainElem (reg : Registry) (ecls : ClassInfo) : JVal → Except PyErr (Bool × Except PyErr PVal)
  | .obj inner => do
      let (m, ev) ← decodeEntries reg ecls inner
      .ok (m, ev >>= mkObj ecls)
  | .arr ys =>
      let (m, v) := decodePrimElem (.arr ys)
      .ok (m, posBind ecls v)
  | .str s => .ok (false, posBind ecls (builtinCoerce (.str s)))
  | .int n => .ok (false, posBind ecls (builtinCoerce (.int n)))
  | .bool b => .ok (false, posBind ecls (builtinCoerce (.bool b)))
  | .null => .ok (false, posBind ecls (builtinCoerce .null))

/-- Decoding of one sequence element through the builtin-data branch
(scalars, source lines 322-330) or the bare-list branch (source lines
303-321).  A payload object here would make the source emit a keyword
argument inside a list literal, malformed text whose later `eval` raises
`SyntaxError`; the flag records that (the descent the source still
performs inside such an object is not modelled further). -/
def decodePrimElem : JVal → (Bool × PVal)
  | .str s => (false, builtinCoerce (.str s))
  | .int n => (false, builtinCoerce (.int n))
  | .bool b => (false, builtinCoerce (.bool b))
  | .null => (false, builtinCoerce .null)
  | .arr ys =>
      let (m, vs) := decodePrimList ys
      (m, .list vs)
  | .obj _ => (true, .none)

/-- Elementwise decoding of a bare sequence (source lines 303-321). -/
def decodePrimList : JArr → (Bool × PList)
  | .nil => (false, .nil)
  | .cons x xs =>
      let (m1, v) := decodePrimElem x
      let (m2, vs) := decodePrimList xs
      (m1 || m2, .cons v vs)

end

/-- Decoding of the elements of a top-level sequence (source lines
218-246): every element is decoded against the class mapped from the
caller-supplied `property_type` dictionary, with no per-element type
lookup. -/
def decodeTopListElems (reg : Registry) (ecls : ClassInfo) : JArr → Except PyErr (Bool × Except PyErr PList)
  | .nil => .ok (false, .ok .nil)
  | .cons x xs => do
      let (m1, ev1) ← decodeDomainElem reg ecls x
      let (m2, ev2) ← decodeTopListElems reg ecls xs
      .ok (m1 || m2, do
        let h ← ev1
        let t ← ev2
        .ok (.cons h t))

/-- Decoding of one top-level entry of the payload (the
`len(parent_classes) <= 1` branches of the source).  An object value
resolves its class by capitalising the key with no alias fallback
(source lines 140-154); a sequence value takes its element class from
`property_type` (source line 221), looked up only when the sequence is
nonempty because the lookup sits inside the element loop. -/
def decodeTopEntry (reg : Registry) (pt : List (String × ClassInfo)) (k : String) (v : JVal) : Except PyErr (Bool × Except PyErr PVal) :=
  match v with
  | .obj inner =>
      match List.lookup (capFirst k) reg with
      | Option.none => .error (.attributeError (capFirst k))
      | some cls => do
          let (m, ev) ← decodeEntries reg cls inner
          .ok (m, ev >>= mkObj cls)
  | .arr .nil => .ok (false, .ok (.list .nil))
  | .arr (.cons x xs) =>
      match List.lookup k pt with
      | Option.none => .error (.keyError k)
      | some ecls => do
          let (m, ev) ← decodeTopListElems reg ecls (.cons x xs)
          .ok (m, (fun vs => PVal.list vs) <$> ev)
  | _ => .error .indexError

/-- The accumulator `response_properties` after a call: one deferred
meaning per processed top-level key, in payload order. -/
abbrev TopAcc := List (String × (Bool × Except PyErr PVal))

/-- Iteration over the top-level entries of the payload.  `ctx` records
whether a previous entry left the parent-class stack nonempty: a scalar
top-level entry then crashes indexing `attribute_name_map` on a string
(`AttributeError`, source lines 270-272), while a scalar first entry
crashes indexing the empty stack (`IndexError`, source lines 267-268). -/
def decodeTopEntries (reg : Registry) (pt : List (String × ClassInfo)) (ctx : Bool) : JObj → Except PyErr TopAcc
  | .nil => .ok []
  | .cons k v tl =>
    match v with
    | .obj inner => do
        let r ← decodeTopEntry reg pt k (.obj inner)
        let rest ← decodeTopEntries reg pt true tl
        .ok ((k, r) :: rest)
    | .arr xs => do
        let r ← decodeTopEntry reg pt k (.arr xs)
        let rest ← decodeTopEntries reg pt true tl
        .ok ((k, r) :: rest)
    | _ => if ctx then .error (.attributeError "str") else .error .indexError

/-- The embedding of `Utilities.dictionary_to_object` as entered by the
library (`parent_classes` at its default, `response_properties` mapping
each top-level key to `None`).  Generation-time exceptions abort the
call; when `is_top_level` is set the deferred text of the most recently
processed top-level key is evaluated (source lines 332-335): a malformed
text raises `SyntaxError`, an unbindable constructor call `TypeError`,
otherwise the call returns the constructed value.  When `is_top_level`
is left false nothing is evaluated and the call returns `None`.  The
second component is the final accumulator. -/
def dictionary_to_object (reg : Registry) (pt : List (String × ClassInfo)) (data : JVal) (is_top_level : Bool) : Except PyErr (Option PVal × TopAcc) :=
  match data with
  | .obj kvs => do
      let acc ← decodeTopEntries reg pt false kvs
      if is_top_level then
        match acc.getLast? with
        | some (_, (m, ev)) =>
            if m then .error .badGeneratedCode
            else
              match ev with
              | .ok v => .ok (some v, acc)
              | .error e => .error e
        | Option.none => .error .indexError
      else .ok (Option.none, acc)
  | _ => .error .indexError

/-- The cross-call state of the decoder: the contents (as class or key
names) of the list object bound to the mutable default argument
`parent_classes=[]` of `dictionary_to_object`.  Every top-level branch of
the source rebinds the name (`parent_classes = [key]`, lines 142 and 184)
instead of mutating the shared default, so a library entry call only
reads this list.  Were the list left with more than one element, the
nested-object branch would run at top level: it appends the resolved
class to the shared list (line 112) and then crashes on
`response_properties[parent_classes[0]]`, whose value under the library
call pattern is `None` or absent (`AttributeError` or `KeyError`,
modelled as `accumulatorError`); list and scalar values crash on the
accumulator without mutating the list first. -/
def dictionary_to_object_stateful (dflt : List String) (reg : Registry) (pt : List (String × ClassInfo)) (data : JVal) (is_top_level : Bool) : Except PyErr (Option PVal × TopAcc) × List String :=
  if 1 < dflt.length then
    match data with
    | .obj (.cons k (.obj _) _) =>
        match resolveNested reg k with
        | .ok c => (.error .accumulatorError, dflt ++ [c.name])
        | .error e => (.error e, dflt)
    | .obj .nil =>
        if is_top_level then (.error .accumulatorError, dflt)
        else (.ok (Option.none, []), dflt)
    | _ => (.error .accumulatorError, dflt)
  else (dictionary_to_object reg pt data is_top_level, dflt)

/-!
The encoder, `Utilities.object_to_dictionary` (source lines 393-429):
iterates the slots of the object, skips `None` values, maps each
remaining slot name (leading underscore stripped) through
`attribute_name_map` to its wire name, recurses into registered objects
and into lists, and copies everything else verbatim.
-/

mutual

/-- Values appended to the output verbatim because they have no
`__slots__` (source lines 411-414): scalars, `None`, and bare lists.  A
domain object reached here would be placed in the dictionary unconverted,
which no payload can represent. -/
def pvalVerbatim : PVal → Except PyErr JVal
  | .str s => .ok (.str s)
  | .int n => .ok (.int n)
  | .bool b => .ok (.bool b)
  | .none => .ok .null
  | .list xs => (fun js => JVal.arr js) <$> pvalVerbatimList xs
  | .obj _ _ => .error .unrepresentable

/-- Elementwise verbatim copy of a bare list. -/
def pvalVerbatimList : PList → Except PyErr JArr
  | .nil => .ok .nil
  | .cons x xs => do
      let j ← pvalVerbatim x
      let js ← pvalVerbatimList xs
      .ok (.cons j js)

end

mutual

/-- Encoding of the slot assignments of one object of class `cls`
(source lines 397-427).  A `None` value is skipped entirely; a list
value is emitted under its wire name with registered elements recursing
and others copied verbatim; a value whose class is a module attribute
recurses; every other value is copied verbatim under its wire name. -/
def encodeFields (reg : Registry) (cls : ClassInfo) : PFields → Except PyErr JObj
  | .nil => .ok .nil
  | .cons s v tl =>
    match v with
    | .none => encodeFields reg cls tl
    | .list xs =>
        match List.lookup (s.drop 1) cls.attribute_name_map with
        | Option.none => .error (.keyError (s.drop 1))
        | some w => do
            let js ← encodeList reg xs
            let rest ← encodeFields reg cls tl
            .ok (.cons w (.arr js) rest)
    | .obj cn fs =>
        match List.lookup cn reg with
        | some c2 =>
            if c2.slots_method then
              match encodeFields reg c2 fs with
              | .error e => .error e
              | .ok inner =>
                  match List.lookup (s.drop 1) cls.attribute_name_map with
                  | Option.none => .error (.keyError (s.drop 1))
                  | some w => do
                      let rest ← encodeFields reg cls tl
                      .ok (.cons w (.obj inner) rest)
            else .error (.attributeError "slots")
        | Option.none =>
            match List.lookup (s.drop 1) cls.attribute_name_map with
            | Option.none => .error (.keyError (s.drop 1))
            | some _ => .error .unrepresentable
    | .str s2 =>
        match List.lookup (s.drop 1) cls.attribute_name_map with
        | Option.none => .error (.keyError (s.drop 1))
        | some w => do
            let rest ← encodeFields reg cls tl
            .ok (.cons w (.str s2) rest)
    | .int n =>
        match List.lookup (s.drop 1) cls.attribute_name_map with
        | Option.none => .error (.keyError (s.drop 1))
        | some w => do
            let rest ← encodeFields reg cls tl
            .ok (.cons w (.int n) rest)
    | .bool b =>
        match List.lookup (s.drop 1) cls.attribute_name_map with
        | Option.none => .error (.keyError (s.drop 1))
        | some w => do
            let rest ← encodeFields reg cls tl
            .ok (.cons w (.bool b) rest)

/-- Encoding of the elements of a list-valued slot (source lines
406-414): an element with `__slots__` recurses with its own class,
everything else is copied verbatim. -/
def encodeList (reg : Registry) : PList → Except PyErr JArr
  | .nil => .ok .nil
  | .cons x xs =>
    match x with
    | .obj cn fs =>
        match List.lookup cn reg with
        | some c2 =>
            if c2.slots_method then do
              let inner ← encodeFields reg c2 fs
              let rest ← encodeList reg xs
              .ok (.cons (.obj inner) rest)
            else .error (.attributeError "slots")
        | Option.none => .error .unrepresentable
    | _ => do
        let j ← pvalVerbatim x
        let rest ← encodeList reg xs
        .ok (.cons j rest)

end

/-- The embedding of `Utilities.object_to_dictionary`: the source builds
`{type_name: {...}}` and returns the inner dictionary.  The very first
step, `object_.slots()` (line 397), is an `AttributeError` unless the
class of the object provides the `slots` method — no class under `src/`
does, only the domain classes of the missing `pyecobee.objects` package
(the only ones the library ever encodes). -/
def object_to_dictionary (reg : Registry) (cls : ClassInfo) (o : PVal) : Except PyErr JVal :=
  match o with
  | .obj _ fields =>
      if cls.slots_method then (fun entries => JVal.obj entries) <$> encodeFields reg cls fields
      else .error (.attributeError "slots")
  | _ => .error (.attributeError "slots")

/-- Modelled from the spec: the `Status` domain class
(`pyecobee.objects.status`, not in this source tree), with an integer
`code` field and a string `message` field. -/
def StatusCls : ClassInfo :=
  { name := "Status"
    slots := ["_code", "_message"]
    attribute_name_map := [("code", "code"), ("message", "message")]
    attribute_type_map := [("code", "int"), ("message", "six.text_type")]
    ctor_required := []
    slots_method := true }

/-- Modelled from the spec: the `RemoteSensor` domain class
(`pyecobee.objects.remote_sensor`, not in this source tree), restricted
to the fields the spec scenario names. -/
def RemoteSensorCls : ClassInfo :=
  { name := "RemoteSensor"
    slots := ["_id", "_name"]
    attribute_name_map := [("id", "id"), ("name", "name")]
    attribute_type_map := [("id", "six.text_type"), ("name", "six.text_type")]
    ctor_required := []
    slots_method := true }

/-- Modelled from the spec: the `Thermostat` domain class
(`pyecobee.objects.thermostat`, not in this source tree), restricted to
the fields the spec scenario names. -/
def ThermostatCls : ClassInfo :=
  { name := "Thermostat"
    slots := ["_identifier", "_remote_sensors"]
    attribute_name_map :=
      [("identifier", "identifier"), ("remote_sensors", "remoteSensors"),
       ("remoteSensors", "remote_sensors")]
    attribute_type_map :=
      [("identifier", "six.text_type"), ("remote_sensors", "List[RemoteSensor]")]
    ctor_required := []
    slots_method := true }

/-- `EcobeeErrorResponse` from `pyecobee/responses.py` lines 147-152. -/
def EcobeeErrorResponseCls : ClassInfo :=
  { name := "EcobeeErrorResponse"
    slots := ["_error", "_error_description", "_error_uri"]
    attribute_name_map :=
      [("error", "error"), ("error_description", "error_description"),
       ("error_uri", "error_uri")]
    attribute_type_map :=
      [("error", "six.text_type"), ("error_description", "six.text_type"),
       ("error_uri", "six.text_type")]
    ctor_required := ["error", "error_description", "error_uri"]
    slots_method := false }

/-- `EcobeeStatusResponse` from `pyecobee/responses.py` lines 4-9. -/
def EcobeeStatusResponseCls : ClassInfo :=
  { name := "EcobeeStatusResponse"
    slots := ["_status"]
    attribute_name_map := [("status", "status")]
    attribute_type_map := [("status", "Status")]
    ctor_required := ["status"]
    slots_method := false }

/-- `EcobeeAuthorizeResponse` from `pyecobee/responses.py` lines 30-37. -/
def EcobeeAuthorizeResponseCls : ClassInfo :=
  { name := "EcobeeAuthorizeResponse"
    slots := ["_ecobee_pin", "_code", "_scope", "_expires_in", "_interval"]
    attribute_name_map :=
      [("ecobee_pin", "ecobeePin"), ("ecobeePin", "ecobee_pin"),
       ("code", "code"), ("scope", "scope"), ("expires_in", "expires_in"),
       ("interval", "interval")]
    attribute_type_map :=
      [("ecobee_pin", "six.text_type"), ("code", "six.text_type"),
       ("scope", "six.text_type"), ("expires_in", "int"),
       ("interval", "int")]
    ctor_required := ["ecobee_pin", "code", "scope", "expires_in", "interval"]
    slots_method := false }

/-- `EcobeeThermostatsSummaryResponse` from `pyecobee/responses.py`
lines 555-564 (the inherited `status` slot of `EcobeeStatusResponse`
included). -/
def EcobeeThermostatsSummaryResponseCls : ClassInfo :=
  { name := "EcobeeThermostatsSummaryResponse"
    slots := ["_revision_list", "_thermostat_count", "_status_list", "_status"]
    attribute_name_map :=
      [("revision_list", "revisionList"), ("revisionList", "revision_list"),
       ("thermostat_count", "thermostatCount"),
       ("thermostatCount", "thermostat_count"),
       ("status_list", "statusList"), ("statusList", "status_list"),
       ("status", "status")]
    attribute_type_map :=
      [("revision_list", "List[six.text_type]"), ("thermostat_count", "int"),
       ("status_list", "List[six.text_type]"), ("status", "Status")]
    ctor_required := ["revision_list", "thermostat_count", "status_list", "status"]
    slots_method := false }

/-- The registry of classes the theorems below exercise (a fragment of
the module namespace of `pyecobee/utilities.py`). -/
def ecobeeRegistry : Registry :=
  [("Status", StatusCls), ("RemoteSensor", RemoteSensorCls),
   ("Thermostat", ThermostatCls),
   ("EcobeeErrorResponse", EcobeeErrorResponseCls),
   ("EcobeeStatusResponse", EcobeeStatusResponseCls),
   ("EcobeeAuthorizeResponse", EcobeeAuthorizeResponseCls),
   ("EcobeeThermostatsSummaryResponse", EcobeeThermostatsSummaryResponseCls)]

/-!
Payload equivalence and conformance.  The round-trip law of the spec
compares payloads up to key order inside objects, with sequence order
preserved: `JEquiv` is that equivalence.  `conformsEntries` is the
executable conformance judgment for the payloads quantified over by the
round-trip law, mirroring exactly the tests the decoder performs.
-/

/-- Membership of a keyword argument in a generated constructor call. -/
def PFields.Mem (n : String) (v : PVal) : PFields → Prop
  | .nil => False
  | .cons n2 v2 tl => (n2 = n ∧ v2 = v) ∨ PFields.Mem n v tl

/-- Unordered key-value equality of payloads, with sequence element
order preserved: objects are compared by key lookup in both directions,
sequences elementwise. -/
inductive JEquiv : JVal → JVal → Prop where
  | str (s : String) : JEquiv (.str s) (.str s)
  | int (n : Int) : JEquiv (.int n) (.int n)
  | bool (b : Bool) : JEquiv (.bool b) (.bool b)
  | null : JEquiv .null .null
  | arrNil : JEquiv (.arr .nil) (.arr .nil)
  | arrCons {x y : JVal} {xs ys : JArr} :
      JEquiv x y → JEquiv (.arr xs) (.arr ys) →
      JEquiv (.arr (.cons x xs)) (.arr (.cons y ys))
  | obj {xs ys : JObj} :
      (∀ k, (JObj.lookup k xs).isSome = (JObj.lookup k ys).isSome) →
      (∀ k v w, JObj.lookup k xs = some v → JObj.lookup k ys = some w → JEquiv v w) →
      JEquiv (.obj xs) (.obj ys)

/-- The slots of a class whose constructor parameter name is `n` (the
slots `assembleFields` would fill from a keyword argument named `n`). -/
def bindingSlots (cls : ClassInfo) (n : String) : List String :=
  cls.slots.filter (fun s => munge (s.drop 1) == n)

/-- The wire form of one already-constructed field value, read off the
value branches of `encodeFields` (registered objects recurse, lists
recurse elementwise, scalars are copied). -/
def encodeValue (reg : Registry) : PVal → Except PyErr JVal
  | .str s => .ok (.str s)
  | .int n => .ok (.int n)
  | .bool b => .ok (.bool b)
  | .none => .error .unrepresentable
  | .list xs => (fun js => JVal.arr js) <$> encodeList reg xs
  | .obj cn fs =>
      match List.lookup cn reg with
      | some c2 =>
          if c2.slots_method then (fun o => JVal.obj o) <$> encodeFields reg c2 fs
          else .error (.attributeError "slots")
      | Option.none => .error .unrepresentable

/-- Well-formedness of the module namespace: every class is registered
under its own name. -/
def RegWFB (reg : Registry) : Bool :=
  reg.all (fun p => p.2.name == p.1)

/-- Linkage of a field to its storage slot: the keyword argument name
`n` of the field fills exactly one slot, and that slot maps back
(through `attribute_name_map`, underscore stripped) to the wire key
`k`, so that the encoder reproduces the key the decoder consumed. -/
def slotLinkOK (cls : ClassInfo) (n k : String) : Bool :=
  match bindingSlots cls n with
  | [s] => List.lookup (s.drop 1) cls.attribute_name_map == some k
  | _ => false

/-- Linkage for a scalar entry: the wire key maps to a field whose
munged keyword argument fills exactly one slot mapping back to the
key. -/
def scalarEntryOK (cls : ClassInfo) (k : String) : Bool :=
  match List.lookup k cls.attribute_name_map with
  | Option.none => false
  | some f => slotLinkOK cls (munge f) k

/-- Conformance of the elements of a primitive sequence: strings,
integers, and the boolean true (false is corrupted by the decoder, null
becomes the string None, and nested sequences are outside the payload
model of the spec). -/
def conformsPrimElems : JArr → Bool
  | .nil => true
  | .cons x xs =>
      (match x with
       | .str _ => true
       | .int _ => true
       | .bool b => b
       | _ => false) && conformsPrimElems xs

/-- The keyword-argument name the decoder emits for one payload entry:
the mapped field name, munged for scalar values (source line 272) and
unmunged for object and sequence values (source lines 136 and 179). -/
def kwargNameOf (cls : ClassInfo) (k : String) (v : JVal) : Option String :=
  match List.lookup k cls.attribute_name_map with
  | Option.none => Option.none
  | some f => some (if v.isScalar then munge f else f)

/-- Whether some entry of the payload object supplies the constructor
parameter named `p`. -/
def coveredB (cls : ClassInfo) (p : String) : JObj → Bool
  | .nil => false
  | .cons k v tl => (kwargNameOf cls k v == some p) || coveredB cls p tl

/-- Whether the payload object supplies every required constructor
parameter of the class, so that the generated constructor call
evaluates without a `TypeError`. -/
def requiredCovered (cls : ClassInfo) (kvs : JObj) : Bool :=
  cls.ctor_required.all (fun p => coveredB cls p kvs)

mutual

/-- Conformance of the entries of a payload object to a class: keys are
distinct wire names of the class, every wire name maps to a field
soundly linked to a slot, object values conform to the class the
decoder resolves for them, sequence values conform to the branch the
decoder dispatches them to, scalar values are non-null. -/
def conformsEntries (reg : Registry) (cls : ClassInfo) : JObj → Bool
  | .nil => true
  | .cons k v tl =>
      conformsEntry reg cls k v && (JObj.lookup k tl).isNone && conformsEntries reg cls tl

/-- Conformance of one payload entry, by value shape. -/
def conformsEntry (reg : Registry) (cls : ClassInfo) (k : String) : JVal → Bool
  | .str _ => scalarEntryOK cls k
  | .int _ => scalarEntryOK cls k
  | .bool _ => scalarEntryOK cls k
  | .null => false
  | .obj inner =>
      match List.lookup k cls.attribute_name_map with
      | Option.none => false
      | some f =>
          slotLinkOK cls f k &&
          (match resolveNested reg k with
           | .ok child =>
               child.slots_method && requiredCovered child inner &&
               conformsEntries reg child inner
           | .error _ => false)
  | .arr xs =>
      match List.lookup k cls.attribute_name_map with
      | Option.none => false
      | some f =>
          slotLinkOK cls f k &&
          (match List.lookup f cls.attribute_type_map with
           | Option.none => false
           | some ty =>
               if mentionsList ty then
                 match List.lookup (listElemName ty) reg with
                 | some ecls => ecls.slots_method && conformsDomainElems reg ecls xs
                 | Option.none => conformsPrimElems xs
               else conformsPrimElems xs)

/-- Conformance of the elements of a sequence whose declared element
type is a registered class: each element is a payload object conforming
to that class. -/
def conformsDomainElems (reg : Registry) (ecls : ClassInfo) : JArr → Bool
  | .nil => true
  | .cons (.obj inner) xs =>
      requiredCovered ecls inner && conformsEntries reg ecls inner &&
      conformsDomainElems reg ecls xs
  | .cons _ _ => false

end

/-- Facts carried by one keyword argument produced while decoding a
conforming payload object: it fills exactly one slot, that slot maps
back to a wire key present in the payload, and the value re-encodes to
something equivalent to the payload value under that key. -/
def KwEntryGood (reg : Registry) (cls : ClassInfo) (kvs : JObj) (n : String) (v : PVal) : Prop :=
  v ≠ PVal.none ∧
  ∃ s k orig, bindingSlots cls n = [s] ∧
    List.lookup (s.drop 1) cls.attribute_name_map = some k ∧
    JObj.lookup k kvs = some orig ∧
    ∃ j, encodeValue reg v = .ok j ∧ JEquiv j orig

/-- Every keyword argument of the generated call is good. -/
def KwGood (reg : Registry) (cls : ClassInfo) (kvs : JObj) (kw : PFields) : Prop :=
  ∀ n v, PFields.Mem n v kw → KwEntryGood reg cls kvs n v

/-- Every constructor parameter supplied by some payload entry is
present among the keyword arguments of the generated call. -/
def KwNames (cls : ClassInfo) (kvs : JObj) (kw : PFields) : Prop :=
  ∀ p, coveredB cls p kvs = true → (findKwarg p kw).isSome = true

/-- Every payload entry is represented by a keyword argument that the
constructor body will find first for its slot. -/
def KwCovers (cls : ClassInfo) (kvs : JObj) (kw : PFields) : Prop :=
  ∀ k orig, JObj.Mem k orig kvs →
    ∃ n v s, findKwarg n kw = some v ∧ bindingSlots cls n = [s] ∧
      List.lookup (s.drop 1) cls.attribute_name_map = some k

/-- Appending one entry at the end of a payload object. -/
def JObj.snoc : JObj → String → JVal → JObj
  | .nil, k, v => .cons k v .nil
  | .cons k2 v2 tl, k, v => .cons k2 v2 (JObj.snoc tl k v)

/-- Whether every key of a payload object is a wire name of the class. -/
def allKeysKnown (cls : ClassInfo) : JObj → Bool
  | .nil => true
  | .cons k _ tl => (List.lookup k cls.attribute_name_map).isSome && allKeysKnown cls tl

/-- Membership of an element in a decoded list. -/
def PList.Mem (p : PVal) : PList → Prop
  | .nil => False
  | .cons h tl => h = p ∨ PList.Mem p tl

/-- Verbatim copy of a sequence of strings and integers (the effect of
the builtin-data branch on such elements). -/
def primCopy : JArr → PList
  | .nil => .nil
  | .cons (.str s) xs => .cons (.str s) (primCopy xs)
  | .cons (.int n) xs => .cons (.int n) (primCopy xs)
  | .cons _ xs => .cons .none (primCopy xs)

/-- Whether every element of a sequence is a string or an integer. -/
def allStrInt : JArr → Bool
  | .nil => true
  | .cons (.str _) xs => allStrInt xs
  | .cons (.int _) xs => allStrInt xs
  | .cons _ _ => false

/-- Elementwise coercion of a sequence of scalars through the
builtin-data branch. -/
def coerceList : JArr → PList
  | .nil => .nil
  | .cons x xs => .cons (builtinCoerce x) (coerceList xs)

/-- Whether every element of a sequence is a scalar (including null). -/
def allScalar : JArr → Bool
  | .nil => true
  | .cons x xs => x.isScalar && allScalar xs

/-!
Synthetic registry for the type-resolution analysis: a parent class
whose declared type for the field `child` is `Bar`, while the module
namespace resolves the capitalised key `child` to the class `Child`.
-/

/-- A class whose single field `child` is declared of type `Bar`. -/
def ParentCls : ClassInfo :=
  { name := "Parent"
    slots := ["_child"]
    attribute_name_map := [("child", "child")]
    attribute_type_map := [("child", "Bar")]
    ctor_required := []
    slots_method := true }

/-- The class the naming convention resolves for the key `child`. -/
def ChildCls : ClassInfo :=
  { name := "Child"
    slots := ["_x"]
    attribute_name_map := [("x", "x")]
    attribute_type_map := [("x", "int")]
    ctor_required := []
    slots_method := true }

/-- The class the declared-type map names for the field `child`. -/
def BarCls : ClassInfo :=
  { name := "Bar"
    slots := ["_y"]
    attribute_name_map := [("y", "y")]
    attribute_type_map := [("y", "int")]
    ctor_required := []
    slots_method := true }

/-- Registry for the type-resolution analysis. -/
def resolutionRegistry : Registry :=
  [("Parent", ParentCls), ("Child", ChildCls), ("Bar", BarCls)]

/-!
Concrete payloads used by the per-claim theorems.
-/

/-- The spec scenario payload for `Status`. -/
def statusEntries : JObj :=
  .cons "code" (.int 0) (.cons "message" (.str "") .nil)

/-- The spec scenario payload for `Thermostat` with one remote sensor. -/
def thermostatEntries : JObj :=
  .cons "identifier" (.str "123")
    (.cons "remoteSensors"
      (.arr (.cons (.obj (.cons "id" (.str "rs:100") (.cons "name" (.str "Kitchen") .nil))) .nil))
      .nil)

/-- The decoded `Status` object of the spec scenario. -/
def statusDecoded : PVal :=
  .obj "Status" (.cons "_code" (.int 0) (.cons "_message" (.str "") .nil))

/-- The decoded `Thermostat` object of the spec scenario. -/
def thermostatDecoded : PVal :=
  .obj "Thermostat"
    (.cons "_identifier" (.str "123")
      (.cons "_remote_sensors"
        (.list (.cons (.obj "RemoteSensor"
          (.cons "_id" (.str "rs:100") (.cons "_name" (.str "Kitchen") .nil))) .nil))
        .nil))

/-- A full payload for `EcobeeThermostatsSummaryResponse` supplying all
four required constructor parameters, with a boolean `false` inside the
primitive `revisionList` sequence. -/
def summaryEntries : JObj :=
  .cons "revisionList" (.arr (.cons (.bool false) .nil))
    (.cons "thermostatCount" (.int 1)
      (.cons "statusList" (.arr .nil)
        (.cons "status" (.obj statusEntries) .nil)))

/-- The object the decoder constructs from `summaryEntries`: the boolean
`false` in the revision sequence has become `True`. -/
def summaryDecoded : PVal :=
  .obj "EcobeeThermostatsSummaryResponse"
    (.cons "_revision_list" (.list (.cons (.bool true) .nil))
      (.cons "_thermostat_count" (.int 1)
        (.cons "_status_list" (.list .nil)
          (.cons "_status" statusDecoded .nil))))

/-- A full payload for `EcobeeAuthorizeResponse` supplying all five
required constructor parameters, with a sequence under the
scalar-declared `code` field. -/
def authorizeEntries : JObj :=
  .cons "ecobeePin" (.str "p")
    (.cons "code" (.arr (.cons (.str "x") .nil))
      (.cons "scope" (.str "s")
        (.cons "expires_in" (.int 3) (.cons "interval" (.int 1) .nil))))

/-- The object the decoder constructs from `authorizeEntries`: the
`code` field holds a list. -/
def authorizeDecoded : PVal :=
  .obj "EcobeeAuthorizeResponse"
    (.cons "_ecobee_pin" (.str "p")
      (.cons "_code" (.list (.cons (.str "x") .nil))
        (.cons "_scope" (.str "s")
          (.cons "_expires_in" (.int 3) (.cons "_interval" (.int 1) .nil)))))

/-!
Supporting lemmas for the round-trip development.
-/

theorem exceptOkBind {e a b : Type} (x : a) (f : a → Except e b) :
    (Except.ok x >>= f) = f x := rfl

theorem regwf_lookup : ∀ (reg : Registry), RegWFB reg = true →
    ∀ (n : String) (c : ClassInfo), List.lookup n reg = some c → c.name = n
  | [], _, n, c, hl => by simp [List.lookup] at hl
  | (m, d) :: tl, h, n, c, hl => by
    simp only [RegWFB, List.all_cons, Bool.and_eq_true, beq_iff_eq] at h
    by_cases hm : n = m
    · subst hm
      simp only [List.lookup, beq_self_eq_true] at hl
      cases hl
      exact h.1
    · have hb : (n == m) = false := by simpa using hm
      simp only [List.lookup, hb] at hl
      exact regwf_lookup tl (by simpa [RegWFB] using h.2) n c hl

theorem regwf_lookup_self {reg : Registry} (h : RegWFB reg = true)
    {n : String} {c : ClassInfo} (hl : List.lookup n reg = some c) :
    List.lookup c.name reg = some c := by
  rw [regwf_lookup reg h n c hl]
  exact hl

theorem resolveNested_regwf {reg : Registry} {k : String} {c : ClassInfo}
    (h : RegWFB reg = true) (hr : resolveNested reg k = .ok c) :
    List.lookup c.name reg = some c := by
  unfold resolveNested at hr
  split at hr
  · cases hr
    next h1 => exact regwf_lookup_self h h1
  · split at hr
    · split at hr
      · cases hr
        next h3 => exact regwf_lookup_self h h3
      · cases hr
    · cases hr

theorem JObj.lookup_isSome_of_mem : ∀ {o : JObj} {k : String} {v : JVal},
    JObj.Mem k v o → (JObj.lookup k o).isSome = true
  | .cons k2 v2 tl, k, v, h => by
    simp only [JObj.Mem] at h
    rcases h with ⟨rfl, rfl⟩ | h
    · simp [JObj.lookup]
    · simp only [JObj.lookup]
      by_cases hk : k2 = k
      · simp [hk]
      · rw [if_neg hk]
        exact JObj.lookup_isSome_of_mem h

theorem JObj.mem_of_lookup : ∀ {o : JObj} {k : String} {v : JVal},
    JObj.lookup k o = some v → JObj.Mem k v o
  | .cons k2 v2 tl, k, v, h => by
    simp only [JObj.lookup] at h
    by_cases hk : k2 = k
    · rw [if_pos hk] at h
      cases h
      exact Or.inl ⟨hk, rfl⟩
    · rw [if_neg hk] at h
      exact Or.inr (JObj.mem_of_lookup h)

theorem findKwarg_mem : ∀ {kw : PFields} {n : String} {v : PVal},
    findKwarg n kw = some v → PFields.Mem n v kw
  | .cons n2 v2 tl, n, v, h => by
    simp only [findKwarg] at h
    by_cases hn : n2 = n
    · rw [if_pos hn] at h
      cases h
      exact Or.inl ⟨hn, rfl⟩
    · rw [if_neg hn] at h
      exact Or.inr (findKwarg_mem h)

theorem bindingSlots_mem {cls : ClassInfo} {n s : String}
    (h : bindingSlots cls n = [s]) :
    s ∈ cls.slots ∧ munge (s.drop 1) = n := by
  have hs : s ∈ bindingSlots cls n := by rw [h]; exact List.mem_singleton.2 rfl
  unfold bindingSlots at hs
  have := List.mem_filter.1 hs
  exact ⟨this.1, by simpa using this.2⟩

theorem bindingSlots_unique {cls : ClassInfo} {n s s2 : String}
    (h : bindingSlots cls n = [s]) (hmem : s2 ∈ cls.slots)
    (hp : munge (s2.drop 1) = n) : s2 = s := by
  have hs : s2 ∈ bindingSlots cls n := by
    unfold bindingSlots
    exact List.mem_filter.2 ⟨hmem, by simpa using hp⟩
  rw [h] at hs
  exact List.mem_singleton.1 hs

theorem bindsKwarg_of_bindingSlots {cls : ClassInfo} {n s : String}
    (h : bindingSlots cls n = [s]) : bindsKwarg cls n = true := by
  obtain ⟨hmem, hp⟩ := bindingSlots_mem h
  unfold bindsKwarg
  exact List.any_eq_true.2 ⟨s, hmem, by simpa using hp⟩


theorem allBind_of_good : ∀ {cls : ClassInfo} {kw : PFields},
    (∀ n v, PFields.Mem n v kw → ∃ s, bindingSlots cls n = [s]) →
    PFields.allBind cls kw = true
  | _, .nil, _ => rfl
  | cls, .cons n v tl, h => by
    simp only [PFields.allBind, Bool.and_eq_true]
    constructor
    · obtain ⟨s, hs⟩ := h n v (Or.inl ⟨rfl, rfl⟩)
      exact bindsKwarg_of_bindingSlots hs
    · exact allBind_of_good (fun n2 v2 hm => h n2 v2 (Or.inr hm))

theorem encodeFields_cons_none {reg : Registry} {cls : ClassInfo} {s : String} {tl : PFields} :
    encodeFields reg cls (.cons s .none tl) = encodeFields reg cls tl := rfl

theorem encodeFields_cons_val {reg : Registry} {cls : ClassInfo} {s : String}
    {v : PVal} {tl : PFields} {w : String} {j : JVal} {rest : JObj}
    (hv : v ≠ PVal.none)
    (hw : List.lookup (s.drop 1) cls.attribute_name_map = some w)
    (hj : encodeValue reg v = .ok j)
    (hrest : encodeFields reg cls tl = .ok rest) :
    encodeFields reg cls (.cons s v tl) = .ok (.cons w j rest) := by
  cases v with
  | none => exact absurd rfl hv
  | str s2 =>
      simp only [encodeValue] at hj
      cases hj
      simp only [encodeFields, hw, hrest]
      rfl
  | int n =>
      simp only [encodeValue] at hj
      cases hj
      simp only [encodeFields, hw, hrest]
      rfl
  | bool b =>
      simp only [encodeValue] at hj
      cases hj
      simp only [encodeFields, hw, hrest]
      rfl
  | list xs =>
      simp only [encodeValue] at hj
      cases hx : encodeList reg xs with
      | ok js =>
          rw [hx] at hj
          simp only [Except.map_ok] at hj
          cases hj
          simp only [encodeFields, hw, hx, hrest]
          rfl
      | error e =>
          rw [hx] at hj
          simp at hj
  | obj cn fs =>
      simp only [encodeValue] at hj
      cases hc : List.lookup cn reg with
      | some c2 =>
          rw [hc] at hj
          dsimp only at hj
          by_cases hsm : c2.slots_method = true
          · rw [if_pos hsm] at hj
            cases he : encodeFields reg c2 fs with
            | ok inner =>
                rw [he] at hj
                simp only [Except.map_ok] at hj
                cases hj
                simp only [encodeFields, hc]
                rw [if_pos hsm]
                simp only [he, hw, hrest]
                rfl
            | error e =>
                rw [he] at hj
                simp at hj
          · rw [if_neg hsm] at hj
            cases hj
      | none =>
          rw [hc] at hj
          dsimp only at hj
          simp at hj

theorem encodeAssembled : ∀ {reg : Registry} {cls : ClassInfo} {kvs : JObj} {kw : PFields}
    (L : List String),
    (∀ s, s ∈ L → s ∈ cls.slots) →
    KwGood reg cls kvs kw →
    ∃ out, encodeFields reg cls (assembleFields L kw) = .ok out ∧
      (∀ k j, JObj.Mem k j out → ∃ orig, JObj.lookup k kvs = some orig ∧ JEquiv j orig) ∧
      (∀ s, s ∈ L → ∀ v, findKwarg (munge (s.drop 1)) kw = some v →
        ∀ k, List.lookup (s.drop 1) cls.attribute_name_map = some k →
          (JObj.lookup k out).isSome = true)
  | reg, cls, kvs, kw, [], _, _ => by
      refine ⟨.nil, rfl, ?_, ?_⟩
      · intro k j hm
        simp [JObj.Mem] at hm
      · intro s hs
        simp at hs
  | reg, cls, kvs, kw, s :: rest, hL, hgood => by
      obtain ⟨out2, henc2, hfacts2, hemit2⟩ :=
        encodeAssembled rest (fun s2 hs2 => hL s2 (List.mem_cons_of_mem s hs2)) hgood
      cases hass : findKwarg (munge (s.drop 1)) kw with
      | none =>
          refine ⟨out2, ?_, hfacts2, ?_⟩
          · show encodeFields reg cls
              (.cons s ((findKwarg (munge (s.drop 1)) kw).getD .none) (assembleFields rest kw)) = _
            rw [hass]
            exact henc2
          · intro s2 hs2 v hv k hk
            rcases List.mem_cons.1 hs2 with rfl | hs2
            · rw [hass] at hv
              cases hv
            · exact hemit2 s2 hs2 v hv k hk
      | some v =>
          have hmem := findKwarg_mem hass
          obtain ⟨hvne, s2, k, orig, hbind, hmapk, horig, j, hj, hjeq⟩ := hgood _ _ hmem
          have hseq : s = s2 := bindingSlots_unique hbind (hL s (List.mem_cons_self s rest)) rfl
          subst hseq
          have henc : encodeFields reg cls (assembleFields (s :: rest) kw) = .ok (.cons k j out2) := by
            show encodeFields reg cls
              (.cons s ((findKwarg (munge (s.drop 1)) kw).getD .none) (assembleFields rest kw)) = _
            rw [hass]
            exact encodeFields_cons_val hvne hmapk hj henc2
          refine ⟨.cons k j out2, henc, ?_, ?_⟩
          · intro k2 j2 hm
            rcases hm with ⟨rfl, rfl⟩ | hm
            · exact ⟨orig, horig, hjeq⟩
            · exact hfacts2 k2 j2 hm
          · intro s2 hs2 v2 hv2 k2 hk2
            rcases List.mem_cons.1 hs2 with rfl | hs2
            · have : k2 = k := by
                rw [hmapk] at hk2
                cases hk2
                rfl
              subst this
              simp [JObj.lookup]
            · have := hemit2 s2 hs2 v2 hv2 k2 hk2
              simp only [JObj.lookup]
              by_cases hkk : k = k2
              · simp [hkk]
              · rw [if_neg hkk]
                exact this

theorem composeObj {reg : Registry} {cls : ClassInfo} {kvs : JObj} {kw : PFields}
    (hgood : KwGood reg cls kvs kw) (hcov : KwCovers cls kvs kw)
    (hreq : requiredCovered cls kvs = true) (hnames : KwNames cls kvs kw) :
    mkObj cls kw = .ok (.obj cls.name (assembleFields cls.slots kw)) ∧
    ∃ out, encodeFields reg cls (assembleFields cls.slots kw) = .ok out ∧
      JEquiv (.obj out) (.obj kvs) := by
  obtain ⟨out, henc, hfacts, hemit⟩ :=
    @encodeAssembled reg cls kvs kw cls.slots (fun s hs => hs) hgood
  have hbindall : PFields.allBind cls kw = true := by
    apply allBind_of_good
    intro n v hm
    obtain ⟨_, s, k, orig, hbind, _⟩ := hgood n v hm
    exact ⟨s, hbind⟩
  have hcovout : ∀ k orig, JObj.Mem k orig kvs → (JObj.lookup k out).isSome = true := by
    intro k orig hm
    obtain ⟨n, v, s, hfind, hbind, hmapk⟩ := hcov k orig hm
    obtain ⟨hmem, hmunge⟩ := bindingSlots_mem hbind
    refine hemit s hmem v ?_ k hmapk
    rw [hmunge]
    exact hfind
  have hrq : (cls.ctor_required.all (fun p => (findKwarg p kw).isSome)) = true := by
    apply List.all_eq_true.2
    intro p hp
    unfold requiredCovered at hreq
    have hcb : coveredB cls p kvs = true := by
      simpa using List.all_eq_true.1 hreq p hp
    simpa using hnames p hcb
  refine ⟨?_, out, henc, ?_⟩
  · unfold mkObj
    rw [hbindall, hrq]
    rfl
  · refine JEquiv.obj ?_ ?_
    · intro k
      cases ho : JObj.lookup k out with
      | some j =>
          obtain ⟨orig, horig, _⟩ := hfacts k j (JObj.mem_of_lookup ho)
          rw [horig]
          rfl
      | none =>
          cases hk : JObj.lookup k kvs with
          | some orig =>
              have := hcovout k orig (JObj.mem_of_lookup hk)
              rw [ho] at this
              cases this
          | none => rfl
    · intro k v w hv hw
      obtain ⟨orig, horig, hjeq⟩ := hfacts k v (JObj.mem_of_lookup hv)
      rw [horig] at hw
      cases hw
      exact hjeq

theorem extendFacts {reg : Registry} {cls : ClassInfo} {tl : JObj} {kwtl : PFields}
    {k : String} {vorig : JVal} {n0 : String} {v0 : PVal} {s0 : String}
    (hbind0 : bindingSlots cls n0 = [s0])
    (hmap0 : List.lookup (s0.drop 1) cls.attribute_name_map = some k)
    (hv0ne : v0 ≠ PVal.none)
    (henc0 : ∃ j, encodeValue reg v0 = .ok j ∧ JEquiv j vorig)
    (hnodup : (JObj.lookup k tl).isNone = true)
    (hgood : KwGood reg cls tl kwtl)
    (hcov : KwCovers cls tl kwtl) :
    KwGood reg cls (.cons k vorig tl) (.cons n0 v0 kwtl) ∧
    KwCovers cls (.cons k vorig tl) (.cons n0 v0 kwtl) := by
  constructor
  · intro n v hm
    rcases hm with ⟨rfl, rfl⟩ | hm
    · refine ⟨hv0ne, s0, k, vorig, hbind0, hmap0, ?_, henc0⟩
      simp [JObj.lookup]
    · obtain ⟨hne, s, k2, orig, hbind, hmap, horig, hj⟩ := hgood n v hm
      refine ⟨hne, s, k2, orig, hbind, hmap, ?_, hj⟩
      have hkk : k ≠ k2 := by
        intro hkk
        rw [hkk] at hnodup
        rw [horig] at hnodup
        cases hnodup
      simp only [JObj.lookup]
      rw [if_neg hkk]
      exact horig
  · intro k2 orig2 hm
    rcases hm with ⟨rfl, rfl⟩ | hm
    · refine ⟨n0, v0, s0, ?_, hbind0, hmap0⟩
      simp [findKwarg]
    · obtain ⟨n, v, s, hfind, hbind, hmap⟩ := hcov k2 orig2 hm
      have hsome := JObj.lookup_isSome_of_mem hm
      have hnn : n0 ≠ n := by
        intro hnn
        rw [hnn] at hbind0
        rw [hbind0] at hbind
        cases hbind
        rw [hmap0] at hmap
        cases hmap
        rw [Option.isNone_iff_eq_none] at hnodup
        rw [hnodup] at hsome
        cases hsome
      refine ⟨n, v, s, ?_, hbind, hmap⟩
      simp only [findKwarg]
      rw [if_neg hnn]
      exact hfind

theorem extendNames {cls : ClassInfo} {tl : JObj} {kwtl : PFields}
    {k : String} {vorig : JVal} {n0 : String} {v0 : PVal}
    (hkn : kwargNameOf cls k vorig = some n0)
    (hn : KwNames cls tl kwtl) :
    KwNames cls (.cons k vorig tl) (.cons n0 v0 kwtl) := by
  intro p hcov
  simp only [coveredB, Bool.or_eq_true] at hcov
  rcases hcov with hhead | htail
  · rw [hkn] at hhead
    have hnp : n0 = p := by simpa using hhead
    subst hnp
    simp [findKwarg]
  · have := hn p htail
    simp only [findKwarg]
    by_cases hnp : n0 = p
    · simp [hnp]
    · rw [if_neg hnp]
      exact this

theorem decodePrimListElems : ∀ {reg : Registry} {cls : ClassInfo} {f ty : String} (xs : JArr),
    List.lookup f cls.attribute_type_map = some ty →
    (mentionsList ty = false ∨
      (mentionsList ty = true ∧ List.lookup (listElemName ty) reg = Option.none)) →
    conformsPrimElems xs = true →
    ∃ ps, decodeListElems reg cls f xs = .ok (false, .ok ps) ∧
      ∃ js, encodeList reg ps = .ok js ∧ JEquiv (.arr js) (.arr xs)
  | reg, cls, f, ty, .nil, _, _, _ => ⟨.nil, rfl, .nil, rfl, JEquiv.arrNil⟩
  | reg, cls, f, ty, .cons x xs, hty, hbr, hconf => by
      simp only [conformsPrimElems, Bool.and_eq_true] at hconf
      obtain ⟨hx, hxs⟩ := hconf
      obtain ⟨ps, hdec, js, henc, heq⟩ := decodePrimListElems xs hty hbr hxs
      have hstep : ∀ v1 j1, decodePrimElem x = (false, v1) → pvalVerbatim v1 = .ok j1 →
          JEquiv j1 x → v1 ≠ PVal.none ∧
          (match v1 with | PVal.obj _ _ => False | _ => True) →
          ∃ ps2, decodeListElems reg cls f (.cons x xs) = .ok (false, .ok ps2) ∧
            ∃ js2, encodeList reg ps2 = .ok js2 ∧ JEquiv (.arr js2) (.arr (.cons x xs)) := by
        intro v1 j1 hprim hverb hjeq _
        refine ⟨.cons v1 ps, ?_, .cons j1 js, ?_, JEquiv.arrCons hjeq heq⟩
        · simp only [decodeListElems, hty]
          rcases hbr with hbf | ⟨hbt, hlook⟩
          · rw [hbf]
            simp only [Bool.false_eq_true, if_false, hprim, hdec]
            rfl
          · rw [hbt, hlook]
            simp only [if_true, hprim, hdec]
            rfl
        · cases v1 with
          | str s2 =>
              simp only [encodeList, hverb, henc]
              rfl
          | int n =>
              simp only [encodeList, hverb, henc]
              rfl
          | bool b =>
              simp only [encodeList, hverb, henc]
              rfl
          | none =>
              simp only [encodeList, hverb, henc]
              rfl
          | list ys =>
              simp only [encodeList, hverb, henc]
              rfl
          | obj cn fs =>
              simp [pvalVerbatim] at hverb
      cases x with
      | str s2 => exact hstep (.str s2) (.str s2) rfl rfl (JEquiv.str s2) ⟨by simp, trivial⟩
      | int n => exact hstep (.int n) (.int n) rfl rfl (JEquiv.int n) ⟨by simp, trivial⟩
      | bool b =>
          cases b with
          | true => exact hstep (.bool true) (.bool true) rfl rfl (JEquiv.bool true) ⟨by simp, trivial⟩
          | false => simp at hx
      | null => simp at hx
      | arr ys => simp at hx
      | obj o => simp at hx

theorem slotLinkOK_spec {cls : ClassInfo} {n k : String} (h : slotLinkOK cls n k = true) :
    ∃ s, bindingSlots cls n = [s] ∧
      List.lookup (s.drop 1) cls.attribute_name_map = some k := by
  unfold slotLinkOK at h
  split at h
  · next s hs => exact ⟨s, hs, by simpa using h⟩
  · cases h

theorem scalarEntryOK_spec {cls : ClassInfo} {k : String} (h : scalarEntryOK cls k = true) :
    ∃ f s, List.lookup k cls.attribute_name_map = some f ∧
      bindingSlots cls (munge f) = [s] ∧
      List.lookup (s.drop 1) cls.attribute_name_map = some k := by
  unfold scalarEntryOK at h
  split at h
  · cases h
  · next f hf =>
      obtain ⟨s, hs, hmap⟩ := slotLinkOK_spec h
      exact ⟨f, s, hf, hs, hmap⟩

mutual

theorem decodeEntries_conform : ∀ (reg : Registry) (cls : ClassInfo) (kvs : JObj),
    RegWFB reg = true → conformsEntries reg cls kvs = true →
    ∃ kw, decodeEntries reg cls kvs = .ok (false, .ok kw) ∧
      KwGood reg cls kvs kw ∧ KwCovers cls kvs kw ∧ KwNames cls kvs kw
  | reg, cls, .nil, _, _ =>
      ⟨.nil, rfl, fun n v hm => absurd hm (by simp [PFields.Mem]),
        fun k o hm => absurd hm (by simp [JObj.Mem]),
        fun p hcov => absurd hcov (by simp [coveredB])⟩
  | reg, cls, .cons k v tl, hreg, hconf => by
      simp only [conformsEntries, Bool.and_eq_true] at hconf
      obtain ⟨⟨hentry, hnodup⟩, htl⟩ := hconf
      obtain ⟨kwtl, hdectl, hgoodtl, hcovtl, hnamestl⟩ :=
        decodeEntries_conform reg cls tl hreg htl
      cases v with
      | null => simp [conformsEntry] at hentry
      | str s2 =>
          obtain ⟨f, s0, hf, hbind0, hmap0⟩ := scalarEntryOK_spec (by simpa [conformsEntry] using hentry)
          refine ⟨.cons (munge f) (.str s2) kwtl, ?_, ?_⟩
          · simp only [decodeEntries, hf, hdectl]
            rfl
          · have hval : encodeValue reg (PVal.str s2) = .ok (JVal.str s2) := rfl
            obtain ⟨hg2, hc2⟩ := extendFacts hbind0 hmap0 (by simp) ⟨JVal.str s2, hval, JEquiv.str s2⟩
              hnodup hgoodtl hcovtl
            exact ⟨hg2, hc2,
              extendNames (by simp [kwargNameOf, hf, JVal.isScalar]) hnamestl⟩
      | int n =>
          obtain ⟨f, s0, hf, hbind0, hmap0⟩ := scalarEntryOK_spec (by simpa [conformsEntry] using hentry)
          refine ⟨.cons (munge f) (.int n) kwtl, ?_, ?_⟩
          · simp only [decodeEntries, hf, hdectl]
            rfl
          · have hval : encodeValue reg (PVal.int n) = .ok (JVal.int n) := rfl
            obtain ⟨hg2, hc2⟩ := extendFacts hbind0 hmap0 (by simp) ⟨JVal.int n, hval, JEquiv.int n⟩
              hnodup hgoodtl hcovtl
            exact ⟨hg2, hc2,
              extendNames (by simp [kwargNameOf, hf, JVal.isScalar]) hnamestl⟩
      | bool b =>
          obtain ⟨f, s0, hf, hbind0, hmap0⟩ := scalarEntryOK_spec (by simpa [conformsEntry] using hentry)
          refine ⟨.cons (munge f) (.bool b) kwtl, ?_, ?_⟩
          · simp only [decodeEntries, hf, hdectl]
            rfl
          · have hval : encodeValue reg (PVal.bool b) = .ok (JVal.bool b) := rfl
            obtain ⟨hg2, hc2⟩ := extendFacts hbind0 hmap0 (by simp) ⟨JVal.bool b, hval, JEquiv.bool b⟩
              hnodup hgoodtl hcovtl
            exact ⟨hg2, hc2,
              extendNames (by simp [kwargNameOf, hf, JVal.isScalar]) hnamestl⟩
      | obj inner =>
          simp only [conformsEntry] at hentry
          cases hf : List.lookup k cls.attribute_name_map with
          | none => rw [hf] at hentry; cases hentry
          | some f =>
              rw [hf] at hentry
              dsimp only at hentry
              rw [Bool.and_eq_true] at hentry
              obtain ⟨hlink, hrest⟩ := hentry
              cases hres : resolveNested reg k with
              | error e => rw [hres] at hrest; cases hrest
              | ok child =>
                  rw [hres] at hrest
                  dsimp only at hrest
                  rw [Bool.and_eq_true, Bool.and_eq_true] at hrest
                  obtain ⟨⟨hsmc, hreqin⟩, hconfin⟩ := hrest
                  obtain ⟨kwin, hdecin, hgoodin, hcovin, hnamesin⟩ :=
                    decodeEntries_conform reg child inner hreg hconfin
                  obtain ⟨hmk, outin, hencin, heqin⟩ := composeObj hgoodin hcovin hreqin hnamesin
                  obtain ⟨s0, hbind0, hmap0⟩ := slotLinkOK_spec hlink
                  refine ⟨.cons f (.obj child.name (assembleFields child.slots kwin)) kwtl, ?_, ?_⟩
                  · simp only [decodeEntries, hres, exceptOkBind, hf, hdecin, hdectl, hmk]
                    rfl
                  · have hval : encodeValue reg
                        (.obj child.name (assembleFields child.slots kwin)) = .ok (.obj outin) := by
                      simp only [encodeValue, resolveNested_regwf hreg hres]
                      rw [if_pos hsmc]
                      simp only [hencin]
                      rfl
                    obtain ⟨hg2, hc2⟩ := extendFacts hbind0 hmap0 (by simp)
                      ⟨.obj outin, hval, heqin⟩ hnodup hgoodtl hcovtl
                    exact ⟨hg2, hc2,
                      extendNames (by simp [kwargNameOf, hf, JVal.isScalar]) hnamestl⟩
      | arr xs =>
          simp only [conformsEntry] at hentry
          cases hf : List.lookup k cls.attribute_name_map with
          | none => rw [hf] at hentry; cases hentry
          | some f =>
              rw [hf] at hentry
              dsimp only at hentry
              rw [Bool.and_eq_true] at hentry
              obtain ⟨hlink, hrest⟩ := hentry
              obtain ⟨s0, hbind0, hmap0⟩ := slotLinkOK_spec hlink
              cases hty : List.lookup f cls.attribute_type_map with
              | none => rw [hty] at hrest; cases hrest
              | some ty =>
                  rw [hty] at hrest
                  dsimp only at hrest
                  have hlist : ∀ ps js, decodeListElems reg cls f xs = .ok (false, .ok ps) →
                      encodeList reg ps = .ok js → JEquiv (.arr js) (.arr xs) →
                      ∃ kw, decodeEntries reg cls (.cons k (.arr xs) tl) = .ok (false, .ok kw) ∧
                        KwGood reg cls (.cons k (.arr xs) tl) kw ∧
                        KwCovers cls (.cons k (.arr xs) tl) kw ∧
                        KwNames cls (.cons k (.arr xs) tl) kw := by
                    intro ps js hdecl hencl heql
                    refine ⟨.cons f (.list ps) kwtl, ?_, ?_⟩
                    · simp only [decodeEntries, hf, hdecl, exceptOkBind, hdectl]
                      rfl
                    · have hval : encodeValue reg (.list ps) = .ok (.arr js) := by
                        simp only [encodeValue, hencl]
                        rfl
                      obtain ⟨hg2, hc2⟩ := extendFacts hbind0 hmap0 (by simp)
                        ⟨.arr js, hval, heql⟩ hnodup hgoodtl hcovtl
                      exact ⟨hg2, hc2,
                        extendNames (by simp [kwargNameOf, hf, JVal.isScalar]) hnamestl⟩
                  by_cases hml : mentionsList ty = true
                  · rw [hml] at hrest
                    rw [if_pos rfl] at hrest
                    cases hlook : List.lookup (listElemName ty) reg with
                    | some ecls =>
                        rw [hlook] at hrest
                        dsimp only at hrest
                        rw [Bool.and_eq_true] at hrest
                        obtain ⟨hsme, hdoms⟩ := hrest
                        obtain ⟨ps, hdecl, js, hencl, heql⟩ :=
                          decodeDomainElems_conform reg cls f ty ecls xs hreg hty hml hlook hsme hdoms
                        exact hlist ps js hdecl hencl heql
                    | none =>
                        rw [hlook] at hrest
                        obtain ⟨ps, hdecl, js, hencl, heql⟩ :=
                          decodePrimListElems xs hty (Or.inr ⟨hml, hlook⟩) hrest
                        exact hlist ps js hdecl hencl heql
                  · rw [Bool.not_eq_true] at hml
                    rw [hml] at hrest
                    simp only [Bool.false_eq_true, if_false] at hrest
                    obtain ⟨ps, hdecl, js, hencl, heql⟩ :=
                      decodePrimListElems xs hty (Or.inl hml) hrest
                    exact hlist ps js hdecl hencl heql

theorem decodeDomainElems_conform : ∀ (reg : Registry) (cls : ClassInfo) (f ty : String)
    (ecls : ClassInfo) (xs : JArr),
    RegWFB reg = true →
    List.lookup f cls.attribute_type_map = some ty →
    mentionsList ty = true →
    List.lookup (listElemName ty) reg = some ecls →
    ecls.slots_method = true →
    conformsDomainElems reg ecls xs = true →
    ∃ ps, decodeListElems reg cls f xs = .ok (false, .ok ps) ∧
      ∃ js, encodeList reg ps = .ok js ∧ JEquiv (.arr js) (.arr xs)
  | reg, cls, f, ty, ecls, .nil, _, _, _, _, _, _ => ⟨.nil, rfl, .nil, rfl, JEquiv.arrNil⟩
  | reg, cls, f, ty, ecls, .cons (.obj inner) xs, hreg, hty, hml, hlook, hsme, hconf => by
      simp only [conformsDomainElems, Bool.and_eq_true] at hconf
      obtain ⟨⟨hreqx, hx⟩, hxs⟩ := hconf
      obtain ⟨ps, hdecl, js, hencl, heql⟩ :=
        decodeDomainElems_conform reg cls f ty ecls xs hreg hty hml hlook hsme hxs
      obtain ⟨kwin, hdecin, hgoodin, hcovin, hnamesin⟩ :=
        decodeEntries_conform reg ecls inner hreg hx
      obtain ⟨hmk, outin, hencin, heqin⟩ := composeObj hgoodin hcovin hreqx hnamesin
      refine ⟨.cons (.obj ecls.name (assembleFields ecls.slots kwin)) ps, ?_, ?_⟩
      · simp [decodeListElems, hty, hml, hlook, decodeDomainElem, exceptOkBind,
          hdecin, hdecl, hmk]
      · refine ⟨.cons (.obj outin) js, ?_, JEquiv.arrCons heqin heql⟩
        simp only [encodeList, regwf_lookup_self hreg hlook]
        rw [if_pos hsme]
        simp only [hencin, hencl]
        rfl
  | reg, cls, f, ty, ecls, .cons (.str s2) xs, hreg, hty, hml, hlook, hsme, hconf => by
      simp [conformsDomainElems] at hconf
  | reg, cls, f, ty, ecls, .cons (.int n) xs, hreg, hty, hml, hlook, hsme, hconf => by
      simp [conformsDomainElems] at hconf
  | reg, cls, f, ty, ecls, .cons (.bool b) xs, hreg, hty, hml, hlook, hsme, hconf => by
      simp [conformsDomainElems] at hconf
  | reg, cls, f, ty, ecls, .cons .null xs, hreg, hty, hml, hlook, hsme, hconf => by
      simp [conformsDomainElems] at hconf
  | reg, cls, f, ty, ecls, .cons (.arr ys) xs, hreg, hty, hml, hlook, hsme, hconf => by
      simp [conformsDomainElems] at hconf

end

theorem exceptBindOk {e a b : Type} {x : Except e a} {f : a → Except e b} {y : b}
    (h : (x >>= f) = .ok y) : ∃ z, x = .ok z ∧ f z = .ok y := by
  cases x with
  | ok z => exact ⟨z, rfl, h⟩
  | error e2 => cases h

theorem decodeEntries_snoc_unknown : ∀ {reg : Registry} {cls : ClassInfo} (kvs : JObj)
    {k : String} {v : JVal},
    allKeysKnown cls kvs = true →
    List.lookup k cls.attribute_name_map = Option.none →
    v.isScalar = true →
    decodeEntries reg cls (kvs.snoc k v) = decodeEntries reg cls kvs
  | reg, cls, .nil, k, v, _, hunk, hsc => by
      cases v with
      | str s2 => simp only [JObj.snoc, decodeEntries, hunk]; rfl
      | int n => simp only [JObj.snoc, decodeEntries, hunk]; rfl
      | bool b => simp only [JObj.snoc, decodeEntries, hunk]; rfl
      | null => simp only [JObj.snoc, decodeEntries, hunk]; rfl
      | arr xs => simp [JVal.isScalar] at hsc
      | obj o => simp [JVal.isScalar] at hsc
  | reg, cls, .cons k2 v2 tl, k, v, hknown, hunk, hsc => by
      simp only [allKeysKnown, Bool.and_eq_true] at hknown
      obtain ⟨hk2, htl⟩ := hknown
      have ih := @decodeEntries_snoc_unknown reg cls tl k v htl hunk hsc
      cases hl : List.lookup k2 cls.attribute_name_map with
      | none => rw [hl] at hk2; cases hk2
      | some f =>
          cases v2 with
          | str s2 => simp only [JObj.snoc, decodeEntries, hl, ih]
          | int n => simp only [JObj.snoc, decodeEntries, hl, ih]
          | bool b => simp only [JObj.snoc, decodeEntries, hl, ih]
          | null => simp only [JObj.snoc, decodeEntries, hl, ih]
          | arr xs => simp only [JObj.snoc, decodeEntries, hl, ih]
          | obj inner => simp only [JObj.snoc, decodeEntries, hl, ih]

theorem encodeFields_cons_inv {reg : Registry} {cls : ClassInfo} {s : String}
    {v : PVal} {tl : PFields} {out : JObj}
    (h : encodeFields reg cls (.cons s v tl) = .ok out) (hv : v ≠ PVal.none) :
    ∃ w j rest, List.lookup (s.drop 1) cls.attribute_name_map = some w ∧
      encodeValue reg v = .ok j ∧ encodeFields reg cls tl = .ok rest ∧
      out = .cons w j rest := by
  cases v with
  | none => exact absurd rfl hv
  | str s2 =>
      simp only [encodeFields] at h
      cases hw : List.lookup (s.drop 1) cls.attribute_name_map with
      | none => rw [hw] at h; cases h
      | some w =>
          rw [hw] at h
          dsimp only at h
          obtain ⟨rest, hrest, hout⟩ := exceptBindOk h
          cases hout
          exact ⟨w, .str s2, rest, rfl, rfl, hrest, rfl⟩
  | int n =>
      simp only [encodeFields] at h
      cases hw : List.lookup (s.drop 1) cls.attribute_name_map with
      | none => rw [hw] at h; cases h
      | some w =>
          rw [hw] at h
          dsimp only at h
          obtain ⟨rest, hrest, hout⟩ := exceptBindOk h
          cases hout
          exact ⟨w, .int n, rest, rfl, rfl, hrest, rfl⟩
  | bool b =>
      simp only [encodeFields] at h
      cases hw : List.lookup (s.drop 1) cls.attribute_name_map with
      | none => rw [hw] at h; cases h
      | some w =>
          rw [hw] at h
          dsimp only at h
          obtain ⟨rest, hrest, hout⟩ := exceptBindOk h
          cases hout
          exact ⟨w, .bool b, rest, rfl, rfl, hrest, rfl⟩
  | list xs =>
      simp only [encodeFields] at h
      cases hw : List.lookup (s.drop 1) cls.attribute_name_map with
      | none => rw [hw] at h; cases h
      | some w =>
          rw [hw] at h
          dsimp only at h
          obtain ⟨js, hjs, h2⟩ := exceptBindOk h
          obtain ⟨rest, hrest, hout⟩ := exceptBindOk h2
          cases hout
          refine ⟨w, .arr js, rest, rfl, ?_, hrest, rfl⟩
          simp only [encodeValue, hjs]
          rfl
  | obj cn fs =>
      simp only [encodeFields] at h
      cases hc : List.lookup cn reg with
      | none =>
          rw [hc] at h
          dsimp only at h
          cases hw : List.lookup (s.drop 1) cls.attribute_name_map with
          | none => rw [hw] at h; cases h
          | some w => rw [hw] at h; cases h
      | some c2 =>
          rw [hc] at h
          dsimp only at h
          by_cases hsm : c2.slots_method = true
          · rw [if_pos hsm] at h
            cases he : encodeFields reg c2 fs with
            | error e =>
                rw [he] at h
                cases h
            | ok inner =>
                rw [he] at h
                dsimp only at h
                cases hw : List.lookup (s.drop 1) cls.attribute_name_map with
                | none => rw [hw] at h; cases h
                | some w =>
                    rw [hw] at h
                    dsimp only at h
                    obtain ⟨rest, hrest, hout⟩ := exceptBindOk h
                    cases hout
                    refine ⟨w, .obj inner, rest, rfl, ?_, hrest, rfl⟩
                    simp only [encodeValue, hc]
                    rw [if_pos hsm]
                    simp only [he]
                    rfl
          · rw [if_neg hsm] at h
            cases h

theorem encode_keys_from_fields : ∀ {reg : Registry} {cls : ClassInfo} (fields : PFields)
    {out : JObj}, encodeFields reg cls fields = .ok out →
    ∀ w j, JObj.Mem w j out →
      ∃ s v, PFields.Mem s v fields ∧ v ≠ PVal.none ∧
        List.lookup (s.drop 1) cls.attribute_name_map = some w ∧
        encodeValue reg v = .ok j
  | reg, cls, .nil, out, henc, w, j, hm => by
      cases henc
      simp [JObj.Mem] at hm
  | reg, cls, .cons s v tl, out, henc, w, j, hm => by
      by_cases hv : v = PVal.none
      · subst hv
        rw [encodeFields_cons_none] at henc
        obtain ⟨s2, v2, hmem, hne, hmap, hval⟩ := encode_keys_from_fields tl henc w j hm
        exact ⟨s2, v2, Or.inr hmem, hne, hmap, hval⟩
      · obtain ⟨w2, j2, rest, hmap, hval, hrest, hout⟩ := encodeFields_cons_inv henc hv
        subst hout
        rcases hm with ⟨rfl, rfl⟩ | hm
        · exact ⟨s, v, Or.inl ⟨rfl, rfl⟩, hv, hmap, hval⟩
        · obtain ⟨s2, v2, hmem, hne, hmap2, hval2⟩ := encode_keys_from_fields tl hrest w j hm
          exact ⟨s2, v2, Or.inr hmem, hne, hmap2, hval2⟩

theorem encode_emits : ∀ {reg : Registry} {cls : ClassInfo} (fields : PFields)
    {out : JObj}, encodeFields reg cls fields = .ok out →
    ∀ s v, PFields.Mem s v fields → v ≠ PVal.none →
      ∃ w j, List.lookup (s.drop 1) cls.attribute_name_map = some w ∧
        encodeValue reg v = .ok j ∧ JObj.Mem w j out
  | reg, cls, .nil, out, henc, s, v, hm, hv => by simp [PFields.Mem] at hm
  | reg, cls, .cons s2 v2 tl, out, henc, s, v, hm, hv => by
      by_cases hv2 : v2 = PVal.none
      · subst hv2
        rw [encodeFields_cons_none] at henc
        rcases hm with ⟨rfl, rfl⟩ | hm
        · exact absurd rfl hv
        · exact encode_emits tl henc s v hm hv
      · obtain ⟨w, j, rest, hmap, hval, hrest, hout⟩ := encodeFields_cons_inv henc hv2
        subst hout
        rcases hm with ⟨rfl, rfl⟩ | hm
        · exact ⟨w, j, hmap, hval, Or.inl ⟨rfl, rfl⟩⟩
        · obtain ⟨w2, j2, hmap2, hval2, hmem2⟩ := encode_emits tl hrest s v hm hv
          exact ⟨w2, j2, hmap2, hval2, Or.inr hmem2⟩

theorem mkObj_ok_shape {cls : ClassInfo} {kw : PFields} {p : PVal}
    (h : mkObj cls kw = .ok p) : p = .obj cls.name (assembleFields cls.slots kw) := by
  unfold mkObj at h
  split at h
  · cases h
    rfl
  · cases h

theorem posBind_ok_shape {cls : ClassInfo} {v : PVal} {p : PVal}
    (h : posBind cls v = .ok p) : ∃ fl, p = .obj cls.name fl := by
  unfold posBind at h
  split at h
  · cases h
  · split at h
    · cases h
      exact ⟨_, rfl⟩
    · cases h

theorem decodeDomainElem_shape {reg : Registry} {ecls : ClassInfo} {x : JVal}
    {m : Bool} {ev : Except PyErr PVal}
    (h : decodeDomainElem reg ecls x = .ok (m, ev)) :
    ∀ p, ev = .ok p → ∃ fl, p = .obj ecls.name fl := by
  intro p hp
  cases x with
  | obj inner =>
      simp only [decodeDomainElem] at h
      cases hd : decodeEntries reg ecls inner with
      | error e => rw [hd] at h; cases h
      | ok pr =>
          rw [hd] at h
          obtain ⟨m1, ev1⟩ := pr
          cases h
          obtain ⟨kw, hev1, hmk⟩ := exceptBindOk hp
          exact ⟨_, mkObj_ok_shape hmk⟩
  | arr ys =>
      simp only [decodeDomainElem] at h
      cases h
      exact posBind_ok_shape hp
  | str s2 =>
      simp only [decodeDomainElem] at h
      cases h
      exact posBind_ok_shape hp
  | int n =>
      simp only [decodeDomainElem] at h
      cases h
      exact posBind_ok_shape hp
  | bool b =>
      simp only [decodeDomainElem] at h
      cases h
      exact posBind_ok_shape hp
  | null =>
      simp only [decodeDomainElem] at h
      cases h
      exact posBind_ok_shape hp

theorem decodeListElems_domain_shape : ∀ {reg : Registry} {cls : ClassInfo} {f ty : String}
    {ecls : ClassInfo} (xs : JArr) {m : Bool} {ps : PList},
    List.lookup f cls.attribute_type_map = some ty →
    mentionsList ty = true →
    List.lookup (listElemName ty) reg = some ecls →
    decodeListElems reg cls f xs = .ok (m, .ok ps) →
    ∀ p, PList.Mem p ps → ∃ fl, p = .obj ecls.name fl
  | reg, cls, f, ty, ecls, .nil, m, ps, _, _, _, hd, p, hm => by
      cases hd
      simp [PList.Mem] at hm
  | reg, cls, f, ty, ecls, .cons x xs, m, ps, hty, hml, hlook, hd, p, hm => by
      simp only [decodeListElems, hty, hml, if_true, hlook] at hd
      obtain ⟨pr, hde, h2⟩ := exceptBindOk hd
      obtain ⟨m1, ev1⟩ := pr
      obtain ⟨pr2, hdl, h3⟩ := exceptBindOk h2
      obtain ⟨m2, ev2⟩ := pr2
      simp only [Except.ok.injEq, Prod.mk.injEq] at h3
      obtain ⟨hm12, hev⟩ := h3
      obtain ⟨h0, hev0, hps⟩ := exceptBindOk hev
      obtain ⟨t0, ht0, hcons⟩ := exceptBindOk hps
      simp only [Except.ok.injEq] at hcons
      subst hcons
      rcases hm with rfl | hm
      · exact decodeDomainElem_shape hde _ hev0
      · exact decodeListElems_domain_shape xs hty hml hlook (by rw [hdl, ht0]) _ hm

theorem decodeListElems_primCopy : ∀ {reg : Registry} {cls : ClassInfo} {f ty : String}
    (xs : JArr),
    allStrInt xs = true →
    List.lookup f cls.attribute_type_map = some ty →
    (mentionsList ty = false ∨
      (mentionsList ty = true ∧ List.lookup (listElemName ty) reg = Option.none)) →
    decodeListElems reg cls f xs = .ok (false, .ok (primCopy xs))
  | reg, cls, f, ty, .nil, _, _, _ => rfl
  | reg, cls, f, ty, .cons x xs, hall, hty, hbr => by
      have hxs : allStrInt xs = true := by
        cases x <;> simp [allStrInt] at hall <;> assumption
      have ih := @decodeListElems_primCopy reg cls f ty xs hxs hty hbr
      cases x with
      | str s2 =>
          simp only [decodeListElems, hty]
          rcases hbr with hbf | ⟨hbt, hlk⟩
          · rw [hbf]
            simp only [Bool.false_eq_true, if_false, ih]
            rfl
          · rw [hbt, hlk]
            simp only [if_true, ih]
            rfl
      | int n =>
          simp only [decodeListElems, hty]
          rcases hbr with hbf | ⟨hbt, hlk⟩
          · rw [hbf]
            simp only [Bool.false_eq_true, if_false, ih]
            rfl
          · rw [hbt, hlk]
            simp only [if_true, ih]
            rfl
      | bool b => simp [allStrInt] at hall
      | null => simp [allStrInt] at hall
      | arr ys => simp [allStrInt] at hall
      | obj o => simp [allStrInt] at hall

theorem decodeListElems_coerce : ∀ {reg : Registry} {cls : ClassInfo} {f ty : String}
    (xs : JArr),
    allScalar xs = true →
    List.lookup f cls.attribute_type_map = some ty →
    mentionsList ty = false →
    decodeListElems reg cls f xs = .ok (false, .ok (coerceList xs))
  | reg, cls, f, ty, .nil, _, _, _ => rfl
  | reg, cls, f, ty, .cons x xs, hall, hty, hml => by
      simp only [allScalar, Bool.and_eq_true] at hall
      obtain ⟨hx, hxs⟩ := hall
      have ih := @decodeListElems_coerce reg cls f ty xs hxs hty hml
      cases x with
      | str s2 =>
          simp only [decodeListElems, hty, hml, Bool.false_eq_true, if_false, ih, coerceList]
          rfl
      | int n =>
          simp only [decodeListElems, hty, hml, Bool.false_eq_true, if_false, ih, coerceList]
          rfl
      | bool b =>
          simp only [decodeListElems, hty, hml, Bool.false_eq_true, if_false, ih, coerceList]
          rfl
      | null =>
          simp only [decodeListElems, hty, hml, Bool.false_eq_true, if_false, ih, coerceList]
          rfl
      | arr ys => simp [JVal.isScalar] at hx
      | obj o => simp [JVal.isScalar] at hx

/-!
Claim theorems.
-/

/-- C1 counterexample: decoding a payload whose final key `bogus` is
absent from the wire-name map of `Status` raises nothing: the decode
succeeds, silently drops the key, and returns a partly populated
object presented as valid, contradicting the claim that an
`UnknownFieldError` carrying the key and the type is raised. -/
theorem C1_counterexample :
    List.lookup "bogus" StatusCls.attribute_name_map = Option.none ∧
    dictionary_to_object ecobeeRegistry []
      (.obj (.cons "Status" (.obj (.cons "code" (.int 0) (.cons "bogus" (.int 7) .nil))) .nil)) true =
      .ok (some (.obj "Status" (.cons "_code" (.int 0) (.cons "_message" .none .nil))),
        [("Status", (false, .ok (.obj "Status" (.cons "_code" (.int 0) (.cons "_message" .none .nil)))))]) :=
  ⟨rfl, rfl⟩

/-- C1 (amended): an unknown wire key holding a scalar value, placed
after the known keys of its payload object, is logged and skipped: the
decode call returns exactly what it returns without that key — no
error is raised and the object built from the known keys is presented
as valid. -/
theorem C1_unknown_trailing_scalar_dropped (reg : Registry)
    (pt : List (String × ClassInfo)) (K : String) (cls : ClassInfo)
    (kvs : JObj) (k : String) (v : JVal) (t : Bool)
    (hcls : List.lookup (capFirst K) reg = some cls)
    (hknown : allKeysKnown cls kvs = true)
    (hunk : List.lookup k cls.attribute_name_map = Option.none)
    (hsc : v.isScalar = true) :
    dictionary_to_object reg pt (.obj (.cons K (.obj (kvs.snoc k v)) .nil)) t =
    dictionary_to_object reg pt (.obj (.cons K (.obj kvs) .nil)) t := by
  have hs := @decodeEntries_snoc_unknown reg cls kvs k v hknown hunk hsc
  simp only [dictionary_to_object, decodeTopEntries, decodeTopEntry, hcls, hs]

/-- C1 witness: the amended theorem applied to the `Status` payload
with the unknown trailing key `bogus`. -/
theorem C1_witness :
    dictionary_to_object ecobeeRegistry []
      (.obj (.cons "Status" (.obj (statusEntries.snoc "bogus" (.int 7))) .nil)) true =
    dictionary_to_object ecobeeRegistry []
      (.obj (.cons "Status" (.obj statusEntries) .nil)) true :=
  C1_unknown_trailing_scalar_dropped ecobeeRegistry [] "Status" StatusCls
    statusEntries "bogus" (.int 7) true rfl rfl rfl rfl

/-- C3: decoding the spec scenario `{Status: {code: 0, message: ""}}`
produces an integer `code` equal to 0 and an empty string `message`
(first conjunct), but a boolean `false` inside a sequence of primitives
is corrupted to `True`, because the builtin-data branch evaluates
`bool(format(False))`, the truth value of the nonempty string `False`
(second conjunct, the failing input of the code bug). -/
theorem C3_bool_int_fidelity :
    dictionary_to_object ecobeeRegistry []
      (.obj (.cons "Status" (.obj statusEntries) .nil)) true =
      .ok (some statusDecoded, [("Status", (false, .ok statusDecoded))]) ∧
    dictionary_to_object ecobeeRegistry []
      (.obj (.cons "EcobeeThermostatsSummaryResponse" (.obj summaryEntries) .nil)) true =
      .ok (some summaryDecoded,
        [("EcobeeThermostatsSummaryResponse", (false, .ok summaryDecoded))]) :=
  ⟨rfl, rfl⟩

/-- C4: encoding an object never emits the wire key of a field holding
`None` (provided no other, non-null field of the object shares that
wire name), and every non-null field is emitted under its wire name
with its encoded value. -/
theorem C4_sparse_encode (reg : Registry) (cls : ClassInfo) (cn : String)
    (fields : PFields) (out : JObj)
    (henc : object_to_dictionary reg cls (.obj cn fields) = .ok (.obj out)) :
    (∀ s w, PFields.Mem s PVal.none fields →
       List.lookup (s.drop 1) cls.attribute_name_map = some w →
       (∀ s2 v2, PFields.Mem s2 v2 fields → v2 ≠ PVal.none →
          List.lookup (s2.drop 1) cls.attribute_name_map ≠ some w) →
       JObj.lookup w out = Option.none) ∧
    (∀ s v, PFields.Mem s v fields → v ≠ PVal.none →
       ∃ w j, List.lookup (s.drop 1) cls.attribute_name_map = some w ∧
         encodeValue reg v = .ok j ∧ JObj.Mem w j out) := by
  have henc2 : encodeFields reg cls fields = .ok out := by
    simp only [object_to_dictionary] at henc
    by_cases hsm : cls.slots_method = true
    · rw [if_pos hsm] at henc
      cases he : encodeFields reg cls fields with
      | ok o2 =>
          rw [he] at henc
          simp only [Except.map_ok, Except.ok.injEq, JVal.obj.injEq] at henc
          rw [henc]
      | error e =>
          rw [he] at henc
          simp at henc
    · rw [if_neg hsm] at henc
      cases henc
  constructor
  · intro s w hm hw hnone
    cases hl : JObj.lookup w out with
    | none => rfl
    | some j =>
        obtain ⟨s2, v2, hmem2, hne2, hmap2, _⟩ :=
          encode_keys_from_fields fields henc2 w j (JObj.mem_of_lookup hl)
        exact absurd hmap2 (hnone s2 v2 hmem2 hne2)
  · intro s v hm hv
    exact encode_emits fields henc2 s v hm hv

/-- C4 witness: the sparse-encode theorem applied to a `Status` object
whose `message` field is `None`: the key `message` is not emitted, the
non-null `code` field is. -/
theorem C4_witness :
    JObj.lookup "message" (.cons "code" (.int 3) .nil) = Option.none ∧
    ∃ w j, List.lookup ("_code".drop 1) StatusCls.attribute_name_map = some w ∧
      encodeValue ecobeeRegistry (.int 3) = .ok j ∧
      JObj.Mem w j (.cons "code" (.int 3) .nil) := by
  have h := C4_sparse_encode ecobeeRegistry StatusCls "Status"
    (.cons "_code" (.int 3) (.cons "_message" .none .nil))
    (.cons "code" (.int 3) .nil) rfl
  refine ⟨?_, ?_⟩
  · refine h.1 "_message" "message" (Or.inr (Or.inl ⟨rfl, rfl⟩)) rfl ?_
    intro s2 v2 hm hne
    rcases hm with ⟨rfl, rfl⟩ | hm
    · decide
    · rcases hm with ⟨rfl, rfl⟩ | hm
      · exact absurd rfl hne
      · cases hm
  · exact h.2 "_code" (.int 3) (Or.inl ⟨rfl, rfl⟩) (by simp)

/-- C5: sequence values are dispatched on the declared element type
from the `attribute_type_map` of the owning field: the spec scenario payload
for `Thermostat` decodes to one `Thermostat` holding exactly one
`RemoteSensor` with id `rs:100` and name `Kitchen` (first conjunct);
whenever the declared type names a registered class, every decoded
element is an instance of that class, whatever the runtime shapes of
the elements (second conjunct); and when it does not, string and
integer elements are copied verbatim (third conjunct). -/
theorem C5_sequence_dispatch :
    (dictionary_to_object ecobeeRegistry []
      (.obj (.cons "Thermostat" (.obj thermostatEntries) .nil)) true =
      .ok (some thermostatDecoded, [("Thermostat", (false, .ok thermostatDecoded))])) ∧
    (∀ (reg : Registry) (cls : ClassInfo) (f ty : String) (ecls : ClassInfo) (xs : JArr)
       (m : Bool) (ps : PList),
       List.lookup f cls.attribute_type_map = some ty →
       mentionsList ty = true →
       List.lookup (listElemName ty) reg = some ecls →
       decodeListElems reg cls f xs = .ok (m, .ok ps) →
       ∀ p, PList.Mem p ps → ∃ fl, p = .obj ecls.name fl) ∧
    (∀ (reg : Registry) (cls : ClassInfo) (f ty : String) (xs : JArr),
       allStrInt xs = true →
       List.lookup f cls.attribute_type_map = some ty →
       (mentionsList ty = false ∨
         (mentionsList ty = true ∧ List.lookup (listElemName ty) reg = Option.none)) →
       decodeListElems reg cls f xs = .ok (false, .ok (primCopy xs))) :=
  ⟨rfl,
   fun _ _ _ _ _ xs _ _ hty hml hlook hd => decodeListElems_domain_shape xs hty hml hlook hd,
   fun _ _ _ _ xs hall hty hbr => decodeListElems_primCopy xs hall hty hbr⟩

/-- C5 witness: the dispatch theorem applied to the decoded
`remoteSensors` sequence of the spec scenario (domain element class)
and to a string sequence under `revision_list` (primitive copy). -/
theorem C5_witness :
    (∃ fl, PVal.obj "RemoteSensor"
        (.cons "_id" (.str "rs:100") (.cons "_name" (.str "Kitchen") .nil)) =
        .obj (RemoteSensorCls.name) fl) ∧
    decodeListElems ecobeeRegistry EcobeeThermostatsSummaryResponseCls "revision_list"
        (.cons (.str "r1") (.cons (.int 5) .nil)) =
      .ok (false, .ok (primCopy (.cons (.str "r1") (.cons (.int 5) .nil)))) :=
  ⟨C5_sequence_dispatch.2.1 ecobeeRegistry ThermostatCls "remote_sensors"
      "List[RemoteSensor]" RemoteSensorCls
      (.cons (.obj (.cons "id" (.str "rs:100") (.cons "name" (.str "Kitchen") .nil))) .nil)
      false
      (.cons (.obj "RemoteSensor"
        (.cons "_id" (.str "rs:100") (.cons "_name" (.str "Kitchen") .nil))) .nil)
      rfl rfl rfl rfl _ (Or.inl rfl),
   C5_sequence_dispatch.2.2 ecobeeRegistry EcobeeThermostatsSummaryResponseCls
      "revision_list" "List[six.text_type]"
      (.cons (.str "r1") (.cons (.int 5) .nil)) rfl rfl (Or.inr ⟨rfl, rfl⟩)⟩

/-- C6 counterexample: the parent class declares the field `child` with
type `Bar`, yet decoding constructs an instance of `Child` — the class
found by capitalising the wire key in the module namespace — so type
resolution is by naming convention, not by the declared-type map. -/
theorem C6_counterexample :
    List.lookup "child" ParentCls.attribute_type_map = some "Bar" ∧
    dictionary_to_object resolutionRegistry []
      (.obj (.cons "Parent" (.obj (.cons "child" (.obj .nil) .nil)) .nil)) true =
      .ok (some (.obj "Parent" (.cons "_child" (.obj "Child" (.cons "_x" .none .nil)) .nil)),
        [("Parent", (false, .ok (.obj "Parent"
          (.cons "_child" (.obj "Child" (.cons "_x" .none .nil)) .nil))))]) ∧
    "Child" ≠ "Bar" :=
  ⟨rfl, rfl, by decide⟩

/-- C6 (amended): the class of a nested object value is the one
`resolveNested` finds from the wire key (capitalisation with the
`_class_name_map` alias fallback): the constructed child is an instance
of exactly that class (first conjunct), and the decode of an
object-valued entry does not depend on the declared-type map of the parent
at all (second conjunct). -/
theorem C6_naming_resolution :
    (∀ (reg : Registry) (cls child : ClassInfo) (k : String) (inner tl : JObj) (f : String)
       (m1 m2 : Bool) (ev1 ev2 : Except PyErr PFields),
       resolveNested reg k = .ok child →
       List.lookup k cls.attribute_name_map = some f →
       decodeEntries reg child inner = .ok (m1, ev1) →
       decodeEntries reg cls tl = .ok (m2, ev2) →
       decodeEntries reg cls (.cons k (.obj inner) tl) =
         .ok (m1 || m2, do
           let kw ← ev1
           let o ← mkObj child kw
           let rest ← ev2
           Except.ok (.cons f o rest)) ∧
       (∀ kw p, ev1 = .ok kw → mkObj child kw = .ok p →
          p = .obj child.name (assembleFields child.slots kw))) ∧
    (∀ (reg : Registry) (cls cls2 : ClassInfo) (k : String) (inner : JObj),
       cls.attribute_name_map = cls2.attribute_name_map →
       decodeEntries reg cls (.cons k (.obj inner) .nil) =
       decodeEntries reg cls2 (.cons k (.obj inner) .nil)) := by
  constructor
  · intro reg cls child k inner tl f m1 m2 ev1 ev2 hres hf hd1 hd2
    constructor
    · simp only [decodeEntries, hres, exceptOkBind, hf, hd1, hd2]
    · intro kw p _ hmk
      exact mkObj_ok_shape hmk
  · intro reg cls cls2 k inner hnm
    simp only [decodeEntries, hnm]

/-- C6 witness: the naming-resolution theorem applied to the synthetic
registry: the child constructed under `Parent` is an instance of
`Child`, and swapping the declared-type map of the parent does not
change the decode. -/
theorem C6_witness :
    (decodeEntries resolutionRegistry ParentCls (.cons "child" (.obj .nil) .nil) =
      .ok (false || false, do
        let kw ← (Except.ok PFields.nil : Except PyErr PFields)
        let o ← mkObj ChildCls kw
        let rest ← (Except.ok PFields.nil : Except PyErr PFields)
        Except.ok (.cons "child" o rest)) ∧
      (∀ kw p, (Except.ok PFields.nil : Except PyErr PFields) = Except.ok kw →
        mkObj ChildCls kw = .ok p →
        p = .obj ChildCls.name (assembleFields ChildCls.slots kw))) ∧
    decodeEntries resolutionRegistry ParentCls (.cons "child" (.obj .nil) .nil) =
      decodeEntries resolutionRegistry
        { ParentCls with attribute_type_map := [("child", "SomethingElse")] }
        (.cons "child" (.obj .nil) .nil) :=
  ⟨C6_naming_resolution.1 resolutionRegistry ParentCls ChildCls "child" .nil .nil
      "child" false false (.ok .nil) (.ok .nil) rfl rfl rfl rfl,
   C6_naming_resolution.2 resolutionRegistry ParentCls
      { ParentCls with attribute_type_map := [("child", "SomethingElse")] }
      "child" .nil rfl⟩

/-- C7 counterexample: the field `code` of `EcobeeAuthorizeResponse` is
declared `six.text_type` (a scalar), yet a payload giving it a sequence
decodes without any error: the runtime shape wins and the field is
silently populated with a list, contradicting the claim that a
`ShapeMismatchError` is raised. -/
theorem C7_counterexample :
    List.lookup "code" EcobeeAuthorizeResponseCls.attribute_type_map = some "six.text_type" ∧
    mentionsList "six.text_type" = false ∧
    dictionary_to_object ecobeeRegistry []
      (.obj (.cons "EcobeeAuthorizeResponse" (.obj authorizeEntries) .nil)) true =
      .ok (some authorizeDecoded,
        [("EcobeeAuthorizeResponse", (false, .ok authorizeDecoded))]) :=
  ⟨rfl, rfl, rfl⟩

/-- C7 (amended): no shape check exists: a sequence of scalars under a
field whose declared type is a scalar type (one not mentioning `List`)
is decoded, without error, into a list of coerced literals bound to
that field. -/
theorem C7_no_shape_error (reg : Registry) (cls : ClassInfo) (k f ty : String)
    (xs : JArr) (tl : JObj) (m2 : Bool) (ev2 : Except PyErr PFields)
    (hf : List.lookup k cls.attribute_name_map = some f)
    (hty : List.lookup f cls.attribute_type_map = some ty)
    (hml : mentionsList ty = false)
    (hsc : allScalar xs = true)
    (hdectl : decodeEntries reg cls tl = .ok (m2, ev2)) :
    decodeEntries reg cls (.cons k (.arr xs) tl) =
      .ok (m2, do
        let rest ← ev2
        Except.ok (.cons f (.list (coerceList xs)) rest)) := by
  simp only [decodeEntries, hf, decodeListElems_coerce xs hsc hty hml, exceptOkBind, hdectl]
  rfl

/-- C7 witness: the no-shape-error theorem applied to the
counterexample field. -/
theorem C7_witness :
    decodeEntries ecobeeRegistry EcobeeAuthorizeResponseCls
      (.cons "code" (.arr (.cons (.str "x") .nil)) .nil) =
      .ok (false, do
        let rest ← Except.ok PFields.nil
        Except.ok (.cons "code" (.list (coerceList (.cons (.str "x") .nil))) rest)) :=
  C7_no_shape_error ecobeeRegistry EcobeeAuthorizeResponseCls "code" "code"
    "six.text_type" (.cons (.str "x") .nil) .nil false (.ok .nil)
    rfl rfl rfl rfl rfl

/-- C8: the decoder is stateless across calls: the only cross-call
state, the list bound to the mutable default argument `parent_classes`,
is left exactly as found by a library entry call (it is rebound, not
mutated), so a second call on the same payload, run from the state the
first call left behind, returns a structurally equal result and the
same state. -/
theorem C8_stateless_calls (reg : Registry) (pt : List (String × ClassInfo))
    (data : JVal) (t : Bool) :
    (dictionary_to_object_stateful [] reg pt data t).2 = [] ∧
    dictionary_to_object_stateful ((dictionary_to_object_stateful [] reg pt data t).2)
        reg pt data t =
      dictionary_to_object_stateful [] reg pt data t :=
  ⟨rfl, rfl⟩

/-- C9: a call of `dictionary_to_object` with `is_top_level` left false
returns `None` whenever it returns at all; only the `is_top_level=True`
call returns the constructed value, which sits in the caller-supplied
`response_properties` accumulator keyed by the top-level key, as the
evaluation of the last accumulated entry. -/
theorem C9_nontop_returns_none (reg : Registry) (pt : List (String × ClassInfo))
    (data : JVal) :
    (∀ r, dictionary_to_object reg pt data false = .ok r → r.1 = Option.none) ∧
    (∀ v acc, dictionary_to_object reg pt data true = .ok (some v, acc) →
       dictionary_to_object reg pt data false = .ok (Option.none, acc) ∧
       ∃ k m ev, acc.getLast? = some (k, (m, ev)) ∧ m = false ∧ ev = .ok v) := by
  cases data with
  | obj kvs =>
      cases hacc : decodeTopEntries reg pt false kvs with
      | error e =>
          constructor
          · intro r h
            simp only [dictionary_to_object, hacc] at h
            cases h
          · intro v acc h
            simp only [dictionary_to_object, hacc] at h
            cases h
      | ok acc0 =>
          have hfalse : dictionary_to_object reg pt (.obj kvs) false = .ok (Option.none, acc0) := by
            simp only [dictionary_to_object, hacc, exceptOkBind]
            rfl
          constructor
          · intro r h
            rw [hfalse] at h
            cases h
            rfl
          · intro v acc h
            simp only [dictionary_to_object, hacc, exceptOkBind] at h
            cases hl : acc0.getLast? with
            | none => rw [hl] at h; cases h
            | some entry =>
                rw [hl] at h
                obtain ⟨k, m, ev⟩ := entry
                cases m with
                | true => simp at h
                | false =>
                    simp only [Bool.false_eq_true, if_false] at h
                    cases hev : ev with
                    | error e => rw [hev] at h; cases h
                    | ok v0 =>
                        rw [hev] at h
                        simp only [if_true, Except.ok.injEq, Prod.mk.injEq,
                          Option.some.injEq] at h
                        obtain ⟨hv, hacc2⟩ := h
                        subst hv
                        subst hacc2
                        exact ⟨hfalse, k, false, ev, hl, rfl, hev⟩
  | null =>
      constructor
      · intro r h
        simp only [dictionary_to_object] at h
        cases h
      · intro v acc h
        simp only [dictionary_to_object] at h
        cases h
  | str s =>
      constructor
      · intro r h
        simp only [dictionary_to_object] at h
        cases h
      · intro v acc h
        simp only [dictionary_to_object] at h
        cases h
  | int n =>
      constructor
      · intro r h
        simp only [dictionary_to_object] at h
        cases h
      · intro v acc h
        simp only [dictionary_to_object] at h
        cases h
  | bool b =>
      constructor
      · intro r h
        simp only [dictionary_to_object] at h
        cases h
      · intro v acc h
        simp only [dictionary_to_object] at h
        cases h
  | arr xs =>
      constructor
      · intro r h
        simp only [dictionary_to_object] at h
        cases h
      · intro v acc h
        simp only [dictionary_to_object] at h
        cases h

/-- C9 witness: the theorem applied to the `Status` payload: the
non-top-level call returns `None` with the value accumulated under the
top-level key, while the top-level call returns the value. -/
theorem C9_witness :
    dictionary_to_object ecobeeRegistry []
        (.obj (.cons "Status" (.obj statusEntries) .nil)) false =
      .ok (Option.none, [("Status", (false, .ok statusDecoded))]) ∧
    ∃ k m ev,
      ([("Status", (false, Except.ok statusDecoded))] : TopAcc).getLast? =
        some (k, (m, ev)) ∧ m = false ∧ ev = .ok statusDecoded :=
  (C9_nontop_returns_none ecobeeRegistry []
    (.obj (.cons "Status" (.obj statusEntries) .nil))).2 statusDecoded
    [("Status", (false, .ok statusDecoded))] rfl

/-- C10: a scalar field whose mapped field name collides with a Python
builtin or keyword is bound to a constructor argument named by
appending one trailing underscore; any other field name is used
unchanged (and the decode of the entry emits exactly that keyword
argument). -/
theorem C10_builtin_keyword_munging (reg : Registry) (cls : ClassInfo) (k : String)
    (v : JVal) (tl : JObj) (f : String) (m2 : Bool) (ev2 : Except PyErr PFields)
    (hf : List.lookup k cls.attribute_name_map = some f)
    (hsc : v.isScalar = true)
    (hdectl : decodeEntries reg cls tl = .ok (m2, ev2)) :
    decodeEntries reg cls (.cons k v tl) =
      .ok (m2, (fun rest => PFields.cons (munge f) (reprScalar v) rest) <$> ev2) ∧
    ((f ∈ pythonBuiltinNames ∨ f ∈ pythonKeywords) → munge f = f ++ "_") ∧
    (¬(f ∈ pythonBuiltinNames ∨ f ∈ pythonKeywords) → munge f = f) := by
  refine ⟨?_, ?_, ?_⟩
  · cases v with
    | str s2 => simp only [decodeEntries, hf, hdectl]; rfl
    | int n => simp only [decodeEntries, hf, hdectl]; rfl
    | bool b => simp only [decodeEntries, hf, hdectl]; rfl
    | null => simp only [decodeEntries, hf, hdectl]; rfl
    | arr xs => simp [JVal.isScalar] at hsc
    | obj o => simp [JVal.isScalar] at hsc
  · intro hmem
    unfold munge
    rw [if_pos hmem]
  · intro hmem
    unfold munge
    rw [if_neg hmem]

/-- C10 witness: the theorem applied to the `RemoteSensor` field `id`,
a Python builtin: the keyword argument emitted is `id_`. -/
theorem C10_witness :
    decodeEntries ecobeeRegistry RemoteSensorCls (.cons "id" (.str "rs:100") .nil) =
      .ok (false, (fun rest => PFields.cons (munge "id") (reprScalar (.str "rs:100")) rest) <$>
        (Except.ok PFields.nil : Except PyErr PFields)) ∧
    munge "id" = "id" ++ "_" :=
  ⟨(C10_builtin_keyword_munging ecobeeRegistry RemoteSensorCls "id" (.str "rs:100")
      .nil "id" false (.ok .nil) rfl rfl rfl).1,
   (C10_builtin_keyword_munging ecobeeRegistry RemoteSensorCls "id" (.str "rs:100")
      .nil "id" false (.ok .nil) rfl rfl rfl).2.1 (Or.inl (by decide))⟩
